import Mathlib

/-!
# CML: matrix-vector multiplication and matrix expression generators

A shallow embedding of `cml/matvec/matvec_mul.h`, `cml/matrix/fixed.h`,
`cml/matrix/dynamic.h`, `cml/et/matrix_traits.h` and `cml/et/matop_macros.h`.

* Containers are opaque to these headers: a matrix exposes `rows()`, `cols()`
  and `operator()(i,j)`, a vector exposes `size()` and `operator[]`.
* An element access outside the extents of a container is undefined behaviour
  in C++; here it is the fault `Error.out_of_range`.
* A failed compile-time assertion, or a template body that cannot be
  instantiated for the argument types it is given, is a fault as well.
* Template parameters (element type, size tag, orientation tag, basis tag)
  become explicit arguments.
* The matrices of the program live in a store, by address: an expression node
  holds its Leaves by reference, and an assignment returns the new store.
-/

namespace cml

/-- Faults of the embedded code. -/
inductive Error where
  /-- run-time size check failed (dynamic-extent operands) -/
  | dimension_mismatch
  /-- compile-time size check failed (fixed-extent operands) -/
  | static_size_mismatch
  /-- element access outside the extents of a container -/
  | out_of_range
  /-- the static assertion on the vector orientation failed -/
  | mvmul_expects_properly_oriented_args_error
  /-- a template body was instantiated with types lacking a member it uses -/
  | ill_formed_instantiation
  deriving DecidableEq, Repr

/-- Size tags of `cml/core/common.h`. -/
inductive size_tag where
  | fixed_size_tag
  | dynamic_size_tag
  deriving DecidableEq, Repr

/-- Vector orientation tags named by `matvec_mul.h`. -/
inductive oriented_tag where
  | row_vector
  | col_vector
  deriving DecidableEq, Repr

/-- A matrix container: `rows()`, `cols()` and the stored elements. -/
structure matrix (α : Type) where
  rows : Nat
  cols : Nat
  elem : Nat → Nat → α

/-- A vector container: the stored elements, `size()` being their number. -/
structure vector (α : Type) where
  data : List α
  deriving Repr

variable {α : Type}

/-- The `rows()`/`cols()` pair, `matrix::size()` (fixed.h:178, dynamic.h:151). -/
def matrix.size (m : matrix α) : Nat × Nat := (m.rows, m.cols)

/-- Read `m(i,j)`. -/
def matrix.get (m : matrix α) (i j : Nat) : Except Error α :=
  if i < m.rows ∧ j < m.cols then .ok (m.elem i j) else .error .out_of_range

/-- Write `m(i,j) = v`. -/
def matrix.set (m : matrix α) (i j : Nat) (v : α) : Except Error (matrix α) :=
  if i < m.rows ∧ j < m.cols then
    .ok ⟨m.rows, m.cols, fun a b => if a = i ∧ b = j then v else m.elem a b⟩
  else .error .out_of_range

/-- The `size()` of a vector. -/
def vector.size (x : vector α) : Nat := x.data.length

/-- Read `x[k]`. -/
def vector.get (x : vector α) (k : Nat) : Except Error α :=
  match x.data[k]? with
  | some v => .ok v
  | none => .error .out_of_range

/-- The stored element `k` of a vector, for stating results (`0` past the end). -/
def vector.elem [Zero α] (x : vector α) (k : Nat) : α := (x.data[k]?).getD 0

/-- Write `y[i] = v`. -/
def vector.set (y : vector α) (i : Nat) (v : α) : Except Error (vector α) :=
  if i < y.size then .ok ⟨y.data.set i v⟩ else .error .out_of_range

/-- Modelled from the spec: `cml::et::detail::Resize(y, N)` for a vector (its
header is not under src/): the container gets extent `N`; the elements are
unspecified, here `default`. -/
def et.detail.Resize_vector [Inhabited α] (N : Nat) : vector α :=
  ⟨List.replicate N default⟩

/-- Modelled from the spec: `cml::et::detail::Resize(m, rows, cols)` for a
matrix (its header is not under src/): the container gets the given extents;
the elements are unspecified, here `default`. -/
def et.detail.Resize_matrix [Inhabited α] (rows cols : Nat) : matrix α :=
  ⟨rows, cols, fun _ _ => default⟩

/-- Modelled from the spec: `CheckedSize(A, x, size_tag)` for a matrix and a
vector (the size checker is not under src/). Spec 4.5 and 4.7: the inner
dimension is the matrix column count against the vector length; a mismatch of
dynamic-extent operands raises a dimension-mismatch error, of fixed-extent
operands it is a build-time failure; the result is sized to the row count. -/
def CheckedSize_matrix_vector (A : matrix α) (x : vector α) :
    size_tag → Except Error Nat
  | .dynamic_size_tag =>
    if A.cols = x.size then .ok A.rows else .error .dimension_mismatch
  | .fixed_size_tag =>
    if A.cols = x.size then .ok A.rows else .error .static_size_mismatch

/-- Modelled from the spec: `CheckedSize(x, A, size_tag)` for a vector and a
matrix (the size checker is not under src/). Spec 4.5 and 4.7: the inner
dimension is the vector length against the matrix row count; the result is
sized to the column count. -/
def CheckedSize_vector_matrix (x : vector α) (A : matrix α) :
    size_tag → Except Error Nat
  | .dynamic_size_tag =>
    if x.size = A.rows then .ok A.cols else .error .dimension_mismatch
  | .fixed_size_tag =>
    if x.size = A.rows then .ok A.cols else .error .static_size_mismatch

namespace matvec_ops
namespace detail

/-- Order selectors: `typedef true_type mul_Ax; typedef false_type mul_xA;`. -/
inductive order_tag where
  | mul_Ax
  | mul_xA
  deriving DecidableEq, Repr

/-- One pass of the inner loop body `sum += (A(i,k)*x[k])`. -/
def mul_step [Add α] [Mul α] (A : matrix α) (x : vector α) (i : Nat)
    (sum : α) (k : Nat) : Except Error α := do
  let a ← A.get i k
  let b ← x.get k
  pure (sum + a * b)

/-- The body of the outer loop of `mul(y, A, x)` up to the value stored in
`y[i]`: `sum_type sum(A(i,0)*x[0]); for(k = 1; k < x.size(); ++k) ...`. -/
def mul_sum [Add α] [Mul α] (A : matrix α) (x : vector α) (i : Nat) :
    Except Error α := do
  let a ← A.get i 0
  let b ← x.get 0
  (List.range' 1 (x.size - 1)).foldlM (mul_step A x i) (a * b)

/-- The kernel `mul(ResultT& y, const LeftT& A, const RightT& x)`
(matvec_mul.h:49-63): `for(i = 0; i < y.size(); ++i) { ...; y[i] = sum; }`. -/
def mul [Add α] [Mul α] (y : vector α) (A : matrix α) (x : vector α) :
    Except Error (vector α) :=
  (List.range y.size).foldlM
    (fun y i => do
      let sum ← mul_sum A x i
      y.set i sum) y

/-- The overload `mul(const LeftT& A, const RightT& x, mul_Ax)`
(matvec_mul.h:65-78) for a matrix `A` and a vector `x`; `tag` is
`ResultT::size_tag`. -/
def mul_Ax [Add α] [Mul α] [Inhabited α] (tag : size_tag) (A : matrix α)
    (x : vector α) : Except Error (vector α) := do
  let N ← CheckedSize_matrix_vector A x tag
  let y : vector α := et.detail.Resize_vector N
  mul y A x

/-- The overload `mul(const LeftT& x, const RightT& A, mul_xA)`
(matvec_mul.h:80-93) for a vector `x` and a matrix `A`; `tag` is
`ResultT::size_tag`. The kernel is called as `mul(y,A,x)`. -/
def mul_xA [Add α] [Mul α] [Inhabited α] (tag : size_tag) (x : vector α)
    (A : matrix α) : Except Error (vector α) := do
  let N ← CheckedSize_vector_matrix x A tag
  let y : vector α := et.detail.Resize_vector N
  mul y A x

/-- An element read of the kernel `mul(y, A, x)`: `A(i,k)` or `x[k]`. -/
inductive read where
  | matrix_elem (i k : Nat)
  | vector_elem (k : Nat)
  deriving DecidableEq, Repr

/-- The read addresses an element inside the container. -/
def read.in_range (A : matrix α) (x : vector α) : read → Prop
  | .matrix_elem i k => i < A.rows ∧ k < A.cols
  | .vector_elem k => k < x.size

instance (A : matrix α) (x : vector α) (r : read) : Decidable (r.in_range A x) :=
  match r with
  | .matrix_elem i k => inferInstanceAs (Decidable (i < A.rows ∧ k < A.cols))
  | .vector_elem k => inferInstanceAs (Decidable (k < x.size))

/-- The element reads of one pass of the outer loop of `mul(y, A, x)`
(matvec_mul.h:56-59), in order: `A(i,0)` and `x[0]` for the initial value of
`sum`, then `A(i,k)` and `x[k]` for `k = 1, ..., x.size() - 1`. -/
def mul_sum_reads (x_size i : Nat) : List read :=
  [.matrix_elem i 0, .vector_elem 0] ++
    (List.range' 1 (x_size - 1)).flatMap fun k => [.matrix_elem i k, .vector_elem k]

/-- The element reads of the kernel `mul(y, A, x)` (matvec_mul.h:54-61), in
order: those of the passes `i = 0, ..., y.size() - 1`. -/
def mul_reads (y_size x_size : Nat) : List read :=
  (List.range y_size).flatMap (mul_sum_reads x_size)

end detail
end matvec_ops

/-! ## Expression operands -/

/-- The matrices and vectors of the program, by address: a Leaf stored in an
expression node is a reference (`const matrix<E,AT>&`) to one of them. -/
structure Store (α : Type) where
  mat : Nat → matrix α
  vec : Nat → vector α

namespace et

/-- `ExprTraits< matrix<E,AT> >::get` (matrix_traits.h:33): `return m(i,j);`. -/
def ExprTraits.get (m : matrix α) (i j : Nat) : Except Error α := m.get i j

/-- `ExprTraits< matrix<E,AT> >::size` (matrix_traits.h:37). -/
def ExprTraits.size (e : matrix α) : Nat × Nat := e.size

/-- `ExprTraits< matrix<E,AT> >::rows` (matrix_traits.h:38). -/
def ExprTraits.rows (m : matrix α) : Nat := m.rows

/-- `ExprTraits< matrix<E,AT> >::cols` (matrix_traits.h:39). -/
def ExprTraits.cols (m : matrix α) : Nat := m.cols

/-- Modelled from the spec: the operator function of a UnaryNode (the
operator headers are not under src/), spec 3: an elementwise function such as
negate, or the transpose index swap. -/
inductive UnaryOp (α : Type) where
  | elementwise (f : α → α)
  | transpose

/-- Modelled from the spec: the sub-operand types of `matrix_expr.h` (not
under src/) that `matop_macros.h` builds: a matrix Leaf held by reference, a
scalar, `UnaryMatrixOp<sub,Op>`, `BinaryMatrixOp<left,right,Op>`, and a
`MatrixXpr<XprT>` wrapper stored as a sub-operand. -/
inductive MatrixNode (α : Type) where
  | leaf (ref : Nat)
  | scalar (s : α)
  | UnaryMatrixOp (op : UnaryOp α) (sub : MatrixNode α)
  | BinaryMatrixOp (op : α → α → α) (left right : MatrixNode α)
  | wrapped (e : MatrixNode α)

/-- Modelled from the spec: `et::MatrixXpr<XprT>` (matrix_expr.h is not under
src/), the root wrapper of a matrix expression; `expression()` returns the
wrapped node. -/
structure MatrixXpr (α : Type) where
  expression : MatrixNode α

/-- A scalar operand is unit-sized (`unit_size_tag`, common.h:45). -/
def MatrixNode.isScalar : MatrixNode α → Bool
  | .scalar _ => true
  | _ => false

/-- Modelled from the spec: `element(i,j)` of an operand (matrix_expr.h is not
under src/), spec 3 and 4.3: a Leaf reads storage, a scalar returns its stored
value, a UnaryNode applies its operator (transpose returns
`sub.element(j,i)`), a BinaryNode returns
`op(left.element(i,j), right.element(i,j))`. -/
def MatrixNode.get (σ : Store α) : MatrixNode α → Nat → Nat → Except Error α
  | .leaf ref, i, j => ExprTraits.get (σ.mat ref) i j
  | .scalar s, _, _ => .ok s
  | .UnaryMatrixOp (.elementwise f) sub, i, j => do
    let a ← sub.get σ i j
    pure (f a)
  | .UnaryMatrixOp .transpose sub, i, j => sub.get σ j i
  | .BinaryMatrixOp op left right, i, j => do
    let a ← left.get σ i j
    let b ← right.get σ i j
    pure (op a b)
  | .wrapped e, i, j => e.get σ i j

/-- Modelled from the spec: `shape()` of an operand (matrix_expr.h and the
size checker are not under src/), spec 3 and 4.5: a Leaf has its container's
extents, transpose swaps them, a BinaryNode has the common extents of its
operands, validated equal unless one side is a scalar. -/
def MatrixNode.size (σ : Store α) : MatrixNode α → Except Error (Nat × Nat)
  | .leaf ref => .ok (ExprTraits.size (σ.mat ref))
  | .scalar _ => .ok (1, 1)
  | .UnaryMatrixOp (.elementwise _) sub => sub.size σ
  | .UnaryMatrixOp .transpose sub => do
    let s ← sub.size σ
    pure (s.2, s.1)
  | .BinaryMatrixOp _ left right =>
    if left.isScalar then right.size σ
    else if right.isScalar then left.size σ
    else do
      let a ← left.size σ
      let b ← right.size σ
      if a = b then pure a else .error .dimension_mismatch
  | .wrapped e => e.size σ

/-- The element accessor `operator()(i,j)` of a `MatrixXpr`. -/
def MatrixXpr.get (σ : Store α) (e : MatrixXpr α) (i j : Nat) : Except Error α :=
  e.expression.get σ i j

/-- The extents `rows()` of a `MatrixXpr`. -/
def MatrixXpr.rows (σ : Store α) (e : MatrixXpr α) : Except Error Nat := do
  let s ← e.expression.size σ
  pure s.1

/-- The extents `cols()` of a `MatrixXpr`. -/
def MatrixXpr.cols (σ : Store α) (e : MatrixXpr α) : Except Error Nat := do
  let s ← e.expression.size σ
  pure s.2

/-- Modelled from the spec: the sub-operand types of `vector_expr.h` (not
under src/): a vector Leaf held by reference, a scalar, a UnaryNode, a
BinaryNode, and a `VectorXpr<XprT>` wrapper stored as a sub-operand. -/
inductive VectorNode (α : Type) where
  | leaf (ref : Nat)
  | scalar (s : α)
  | UnaryVectorOp (op : α → α) (sub : VectorNode α)
  | BinaryVectorOp (op : α → α → α) (left right : VectorNode α)
  | wrapped (e : VectorNode α)

/-- Modelled from the spec: `et::VectorXpr<XprT>` (vector_expr.h is not under
src/), the root wrapper of a vector expression. -/
structure VectorXpr (α : Type) where
  expression : VectorNode α

/-- A scalar operand is unit-sized (`unit_size_tag`, common.h:45). -/
def VectorNode.isScalar : VectorNode α → Bool
  | .scalar _ => true
  | _ => false

/-- Modelled from the spec: `element(i)` of a vector operand (vector_expr.h is
not under src/), spec 3 and 4.3. -/
def VectorNode.get (σ : Store α) : VectorNode α → Nat → Except Error α
  | .leaf ref, i => (σ.vec ref).get i
  | .scalar s, _ => .ok s
  | .UnaryVectorOp f sub, i => do
    let a ← sub.get σ i
    pure (f a)
  | .BinaryVectorOp op left right, i => do
    let a ← left.get σ i
    let b ← right.get σ i
    pure (op a b)
  | .wrapped e, i => e.get σ i

/-- Modelled from the spec: `shape()` of a vector operand (vector_expr.h and
the size checker are not under src/), spec 3 and 4.5. -/
def VectorNode.size (σ : Store α) : VectorNode α → Except Error Nat
  | .leaf ref => .ok (σ.vec ref).size
  | .scalar _ => .ok 1
  | .UnaryVectorOp _ sub => sub.size σ
  | .BinaryVectorOp _ left right =>
    if left.isScalar then right.size σ
    else if right.isScalar then left.size σ
    else do
      let a ← left.size σ
      let b ← right.size σ
      if a = b then pure a else .error .dimension_mismatch
  | .wrapped e => e.size σ

/-- The element accessor `operator[]` of a `VectorXpr`. -/
def VectorXpr.get (σ : Store α) (e : VectorXpr α) (i : Nat) : Except Error α :=
  e.expression.get σ i

/-- The extent `size()` of a `VectorXpr`. -/
def VectorXpr.size (σ : Store α) (e : VectorXpr α) : Except Error Nat :=
  e.expression.size σ

end et

/-- Modelled from the spec: `tmp = e` for a vector destination and a
`VectorXpr` source (the assignment operators of the vector class are not under
src/), spec 4.5 and 4.6: the extents are validated, then
`dest.element(i) = source.element(i)` is written for every valid index by the
indexed loop. -/
def vector.assign (σ : Store α) (dest : vector α) (src : et.VectorXpr α) :
    Except Error (vector α) := do
  let n ← src.size σ
  if n ≠ dest.size then
    .error .dimension_mismatch
  else
    (List.range dest.size).foldlM
      (fun d i => do
        let v ← src.get σ i
        d.set i v) dest

/-- Modelled from the spec: `tmp = e` for a matrix destination and a
`MatrixXpr` source (`CML_MAT_ASSIGN_FROM_MATXPR(=, et::OpAssign)`, whose
definition in class_ops.h is not under src/), spec 4.5 and 4.6: the extents
are validated, then `dest.element(i,j) = source.element(i,j)` is written for
every valid index by the indexed loop. The source reads the store `σ`; the
destination is a temporary outside of it. -/
def matrix.assign (σ : Store α) (dest : matrix α) (src : et.MatrixXpr α) :
    Except Error (matrix α) := do
  let s ← src.expression.size σ
  if s ≠ dest.size then
    .error .dimension_mismatch
  else
    (List.range dest.rows).foldlM
      (fun d i => (List.range dest.cols).foldlM
        (fun d j => do
          let v ← src.get σ i j
          d.set i j v) d) dest

/-- `matrix::identity()` (fixed.h:94-101, dynamic.h:102-109):
`(*this)(i,j) = value_type((i == j)?1:0)` for every `i < rows()`,
`j < cols()`. Element writes keep the extents, so the loop bounds are those of
the matrix on entry. -/
def matrix.identity [Zero α] [One α] (m : matrix α) : Except Error (matrix α) :=
  (List.range m.rows).foldlM
    (fun d i => (List.range m.cols).foldlM
      (fun d j => d.set i j (if i = j then 1 else 0)) d) m

/-! ## Dispatch of `matvec_ops::mul` and the global `operator*` -/

namespace matvec_ops

namespace detail

/-- The operand kinds the template parameters `LeftT`, `RightT` of
`detail::mul` are bound to by the dispatch functions. -/
inductive operand (α : Type) where
  | mat (m : matrix α)
  | vec (v : vector α)

/-- The call `detail::mul<result_type>(left, right, order)`: the order tag
selects the overload, whose body is then instantiated for the argument types.
The kernel `mul(y,A,x)` uses `A(i,k)`, `x[k]` and `k < x.size()`; the `size()`
of a matrix is a pair (fixed.h:178, dynamic.h:151) and no `size_t`, so the
body is well-formed only for a matrix `A` and a vector `x`. -/
def mul_call [Add α] [Mul α] [Inhabited α] (tag : size_tag)
    (left right : operand α) : order_tag → Except Error (vector α)
  | .mul_Ax =>
    match left, right with
    | .mat A, .vec x => mul_Ax tag A x
    | _, _ => .error .ill_formed_instantiation
  | .mul_xA =>
    match left, right with
    | .vec x, .mat A => mul_xA tag x A
    | _, _ => .error .ill_formed_instantiation

end detail

variable [Add α] [Mul α] [Inhabited α]

/-- Dispatch for a matrix and a vector (matvec_mul.h:103-116). -/
def mul_matrix_vector (tag : size_tag) (left : matrix α) (right : vector α) :
    Except Error (vector α) :=
  detail.mul_call tag (.mat left) (.vec right) .mul_Ax

/-- Dispatch for a matrix and a VectorXpr (matvec_mul.h:118-137). -/
def mul_matrix_VectorXpr (σ : Store α) (tag : size_tag) (left : matrix α)
    (right : et.VectorXpr α) : Except Error (vector α) := do
  let n ← right.size σ
  let tmp : vector α := et.detail.Resize_vector n
  let tmp ← tmp.assign σ right
  detail.mul_call tag (.mat left) (.vec tmp) .mul_Ax

/-- Dispatch for a MatrixXpr and a vector (matvec_mul.h:139-158). -/
def mul_MatrixXpr_vector (σ : Store α) (tag : size_tag) (left : et.MatrixXpr α)
    (right : vector α) : Except Error (vector α) := do
  let r ← left.rows σ
  let c ← left.cols σ
  let tmp : matrix α := et.detail.Resize_matrix r c
  let tmp ← tmp.assign σ left
  detail.mul_call tag (.mat tmp) (.vec right) .mul_Ax

/-- Dispatch for a MatrixXpr and a VectorXpr (matvec_mul.h:160-182). -/
def mul_MatrixXpr_VectorXpr (σ : Store α) (tag : size_tag)
    (left : et.MatrixXpr α) (right : et.VectorXpr α) : Except Error (vector α) := do
  let r ← left.rows σ
  let c ← left.cols σ
  let ltmp : matrix α := et.detail.Resize_matrix r c
  let ltmp ← ltmp.assign σ left
  let n ← right.size σ
  let rtmp : vector α := et.detail.Resize_vector n
  let rtmp ← rtmp.assign σ right
  detail.mul_call tag (.mat ltmp) (.vec rtmp) .mul_Ax

/-- Dispatch for a vector and a matrix (matvec_mul.h:184-196). -/
def mul_vector_matrix (tag : size_tag) (left : vector α) (right : matrix α) :
    Except Error (vector α) :=
  detail.mul_call tag (.vec left) (.mat right) .mul_xA

/-- Dispatch for a VectorXpr and a matrix (matvec_mul.h:198-216). -/
def mul_VectorXpr_matrix (σ : Store α) (tag : size_tag) (left : et.VectorXpr α)
    (right : matrix α) : Except Error (vector α) := do
  let n ← left.size σ
  let tmp : vector α := et.detail.Resize_vector n
  let tmp ← tmp.assign σ left
  detail.mul_call tag (.vec tmp) (.mat right) .mul_xA

/-- Dispatch for a vector and a MatrixXpr (matvec_mul.h:218-237); the call on
line 236 passes `detail::mul_Ax()`. -/
def mul_vector_MatrixXpr (σ : Store α) (tag : size_tag) (left : vector α)
    (right : et.MatrixXpr α) : Except Error (vector α) := do
  let r ← right.rows σ
  let c ← right.cols σ
  let tmp : matrix α := et.detail.Resize_matrix r c
  let tmp ← tmp.assign σ right
  detail.mul_call tag (.vec left) (.mat tmp) .mul_Ax

/-- Dispatch for a VectorXpr and a MatrixXpr (matvec_mul.h:239-261). -/
def mul_VectorXpr_MatrixXpr (σ : Store α) (tag : size_tag)
    (left : et.VectorXpr α) (right : et.MatrixXpr α) : Except Error (vector α) := do
  let n ← left.size σ
  let ltmp : vector α := et.detail.Resize_vector n
  let ltmp ← ltmp.assign σ left
  let r ← right.rows σ
  let c ← right.cols σ
  let rtmp : matrix α := et.detail.Resize_matrix r c
  let rtmp ← rtmp.assign σ right
  detail.mul_call tag (.vec ltmp) (.mat rtmp) .mul_xA

end matvec_ops

/-- `CML_STATIC_REQUIRE_M(_E_, _M_)` (cml_assert.h:54-78): only
`STATIC_ASSERTION_FAILURE_M<true,M>` has a `result` type, so a false `_E_`
stops the build with the error struct `_M_`. -/
def CML_STATIC_REQUIRE_M (E : Bool) (M : Error) : Except Error Unit :=
  if E then .ok () else .error M

/-- `same_type<T,U>::is_true` on orientation tags. -/
def same_type (T U : oriented_tag) : Bool := decide (T = U)

section operators

variable [Add α] [Mul α] [Inhabited α]

/-- `operator*` for a matrix and a vector (matvec_mul.h:267-282); `O` is the
orientation tag of the vector. -/
def operator_mul_matrix_vector (tag : size_tag) (O : oriented_tag)
    (left : matrix α) (right : vector α) : Except Error (vector α) := do
  CML_STATIC_REQUIRE_M (same_type O .col_vector)
    .mvmul_expects_properly_oriented_args_error
  matvec_ops.mul_matrix_vector tag left right

/-- `operator*` for a matrix and a VectorXpr (matvec_mul.h:284-299);
`orient_tag` is `XprT::result_type::oriented_tag`. -/
def operator_mul_matrix_VectorXpr (σ : Store α) (tag : size_tag)
    (orient_tag : oriented_tag) (left : matrix α) (right : et.VectorXpr α) :
    Except Error (vector α) := do
  CML_STATIC_REQUIRE_M (same_type orient_tag .col_vector)
    .mvmul_expects_properly_oriented_args_error
  matvec_ops.mul_matrix_VectorXpr σ tag left right

/-- `operator*` for a MatrixXpr and a VectorXpr (matvec_mul.h:301-316);
`orient_tag` is `XprT2::result_type::oriented_tag`. -/
def operator_mul_MatrixXpr_VectorXpr (σ : Store α) (tag : size_tag)
    (orient_tag : oriented_tag) (left : et.MatrixXpr α)
    (right : et.VectorXpr α) : Except Error (vector α) := do
  CML_STATIC_REQUIRE_M (same_type orient_tag .col_vector)
    .mvmul_expects_properly_oriented_args_error
  matvec_ops.mul_MatrixXpr_VectorXpr σ tag left right

/-- `operator*` for a vector and a matrix (matvec_mul.h:318-332); `O` is the
orientation tag of the vector. -/
def operator_mul_vector_matrix (tag : size_tag) (O : oriented_tag)
    (left : vector α) (right : matrix α) : Except Error (vector α) := do
  CML_STATIC_REQUIRE_M (same_type O .row_vector)
    .mvmul_expects_properly_oriented_args_error
  matvec_ops.mul_vector_matrix tag left right

/-- `operator*` for a VectorXpr and a matrix (matvec_mul.h:334-349);
`orient_tag` is `XprT::result_type::oriented_tag`, compared on line 345 with
`col_vector`. -/
def operator_mul_VectorXpr_matrix (σ : Store α) (tag : size_tag)
    (orient_tag : oriented_tag) (left : et.VectorXpr α) (right : matrix α) :
    Except Error (vector α) := do
  CML_STATIC_REQUIRE_M (same_type orient_tag .col_vector)
    .mvmul_expects_properly_oriented_args_error
  matvec_ops.mul_VectorXpr_matrix σ tag left right

/-- `operator*` for a VectorXpr and a MatrixXpr (matvec_mul.h:351-366);
`orient_tag` is `XprT1::result_type::oriented_tag`, compared on line 362 with
`col_vector`. -/
def operator_mul_VectorXpr_MatrixXpr (σ : Store α) (tag : size_tag)
    (orient_tag : oriented_tag) (left : et.VectorXpr α)
    (right : et.MatrixXpr α) : Except Error (vector α) := do
  CML_STATIC_REQUIRE_M (same_type orient_tag .col_vector)
    .mvmul_expects_properly_oriented_args_error
  matvec_ops.mul_VectorXpr_MatrixXpr σ tag left right

/-- The argument kinds of the matrix-vector products. -/
inductive Argument (α : Type) where
  | matrix (m : matrix α)
  | MatrixXpr (e : et.MatrixXpr α)
  | vector (v : vector α)
  | VectorXpr (e : et.VectorXpr α)

/-- Overload resolution for a call `matvec_ops::mul(left, right)` among the
eight overloads of matvec_mul.h:103-261; `none` when no overload takes the
argument types. -/
def matvec_ops.mul (σ : Store α) (tag : size_tag) :
    Argument α → Argument α → Option (Except Error (vector α))
  | .matrix left, .vector right => some (matvec_ops.mul_matrix_vector tag left right)
  | .matrix left, .VectorXpr right =>
    some (matvec_ops.mul_matrix_VectorXpr σ tag left right)
  | .MatrixXpr left, .vector right =>
    some (matvec_ops.mul_MatrixXpr_vector σ tag left right)
  | .MatrixXpr left, .VectorXpr right =>
    some (matvec_ops.mul_MatrixXpr_VectorXpr σ tag left right)
  | .vector left, .matrix right => some (matvec_ops.mul_vector_matrix tag left right)
  | .VectorXpr left, .matrix right =>
    some (matvec_ops.mul_VectorXpr_matrix σ tag left right)
  | .vector left, .MatrixXpr right =>
    some (matvec_ops.mul_vector_MatrixXpr σ tag left right)
  | .VectorXpr left, .MatrixXpr right =>
    some (matvec_ops.mul_VectorXpr_MatrixXpr σ tag left right)
  | _, _ => none

/-- Overload resolution for `left * right` among the six `operator*` of
matvec_mul.h:267-366; `O` is the orientation tag of the vector argument;
`none` when no overload takes the argument types. -/
def operator_mul (σ : Store α) (tag : size_tag) (O : oriented_tag) :
    Argument α → Argument α → Option (Except Error (vector α))
  | .matrix left, .vector right => some (operator_mul_matrix_vector tag O left right)
  | .matrix left, .VectorXpr right =>
    some (operator_mul_matrix_VectorXpr σ tag O left right)
  | .MatrixXpr left, .VectorXpr right =>
    some (operator_mul_MatrixXpr_VectorXpr σ tag O left right)
  | .vector left, .matrix right => some (operator_mul_vector_matrix tag O left right)
  | .VectorXpr left, .matrix right =>
    some (operator_mul_VectorXpr_matrix σ tag O left right)
  | .VectorXpr left, .MatrixXpr right =>
    some (operator_mul_VectorXpr_MatrixXpr σ tag O left right)
  | _, _ => none

end operators

/-! ## The generators of `matop_macros.h`

`_OpT_` is the operator passed to the macro; a matrix argument is a reference
into the store. -/

/-- `CML_MAT_UNIOP` (matop_macros.h:38-51): `ExprT(arg)`. -/
def CML_MAT_UNIOP (OpT : et.UnaryOp α) (arg : Nat) : et.MatrixXpr α :=
  ⟨.UnaryMatrixOp OpT (.leaf arg)⟩

/-- `CML_MATXPR_UNIOP` (matop_macros.h:53-66): `ExprT(arg.expression())`. -/
def CML_MATXPR_UNIOP (OpT : et.UnaryOp α) (arg : et.MatrixXpr α) : et.MatrixXpr α :=
  ⟨.UnaryMatrixOp OpT arg.expression⟩

/-- `CML_MAT_MAT_BINOP` (matop_macros.h:68-84): `ExprT(left,right)`. -/
def CML_MAT_MAT_BINOP (OpT : α → α → α) (left right : Nat) : et.MatrixXpr α :=
  ⟨.BinaryMatrixOp OpT (.leaf left) (.leaf right)⟩

/-- `CML_MAT_MATXPR_BINOP` (matop_macros.h:86-104):
`ExprT(left,right.expression())`. -/
def CML_MAT_MATXPR_BINOP (OpT : α → α → α) (left : Nat) (right : et.MatrixXpr α) :
    et.MatrixXpr α :=
  ⟨.BinaryMatrixOp OpT (.leaf left) right.expression⟩

/-- `CML_MATXPR_MAT_BINOP` (matop_macros.h:106-124):
`ExprT(left.expression(),right)`. -/
def CML_MATXPR_MAT_BINOP (OpT : α → α → α) (left : et.MatrixXpr α) (right : Nat) :
    et.MatrixXpr α :=
  ⟨.BinaryMatrixOp OpT left.expression (.leaf right)⟩

/-- `CML_MATXPR_MATXPR_BINOP` (matop_macros.h:126-151):
`ExprT(left.expression(),right.expression())`. -/
def CML_MATXPR_MATXPR_BINOP (OpT : α → α → α) (left right : et.MatrixXpr α) :
    et.MatrixXpr α :=
  ⟨.BinaryMatrixOp OpT left.expression right.expression⟩

/-- `CML_MAT_SCALAR_BINOP` (matop_macros.h:154-171): `ExprT(left,right)`. -/
def CML_MAT_SCALAR_BINOP (OpT : α → α → α) (left : Nat) (right : α) : et.MatrixXpr α :=
  ⟨.BinaryMatrixOp OpT (.leaf left) (.scalar right)⟩

/-- `CML_SCALAR_MAT_BINOP` (matop_macros.h:173-190): `ExprT(left,right)`. -/
def CML_SCALAR_MAT_BINOP (OpT : α → α → α) (left : α) (right : Nat) : et.MatrixXpr α :=
  ⟨.BinaryMatrixOp OpT (.scalar left) (.leaf right)⟩

/-- `CML_MATXPR_SCALAR_BINOP` (matop_macros.h:192-209):
`ExprT(left.expression(),right)`. -/
def CML_MATXPR_SCALAR_BINOP (OpT : α → α → α) (left : et.MatrixXpr α) (right : α) :
    et.MatrixXpr α :=
  ⟨.BinaryMatrixOp OpT left.expression (.scalar right)⟩

/-- `CML_SCALAR_MATXPR_BINOP` (matop_macros.h:211-228):
`ExprT(left,right.expression())`. -/
def CML_SCALAR_MATXPR_BINOP (OpT : α → α → α) (left : α) (right : et.MatrixXpr α) :
    et.MatrixXpr α :=
  ⟨.BinaryMatrixOp OpT (.scalar left) right.expression⟩

/-- Modelled from the spec: the generator `T` of the transpose node for a
matrix operand (used as `T(A)+B` in simple.cpp:121; its declaration through
`CML_MAT_UNIOP` is not under src/), spec 3: a UnaryNode wrapping transpose. -/
def T_matrix (arg : Nat) : et.MatrixXpr α :=
  CML_MAT_UNIOP .transpose arg

/-- Modelled from the spec: the generator `T` of the transpose node for an
expression operand (its declaration through `CML_MATXPR_UNIOP` is not under
src/), spec 3. -/
def T_MatrixXpr (arg : et.MatrixXpr α) : et.MatrixXpr α :=
  CML_MATXPR_UNIOP .transpose arg

/-! ## Assignment to a matrix of the program -/

/-- The store with the matrix at address `ref` replaced by `m`. -/
def Store.setMat (σ : Store α) (ref : Nat) (m : matrix α) : Store α :=
  ⟨fun r => if r = ref then m else σ.mat r, σ.vec⟩

namespace et

/-- Modelled from the spec: `et::UnrollAssignment<OpT>(dest, src)` for
`OpT = OpAssign` (called in dynamic.h:93; matrix_unroller.h is not under
src/), spec 4.6: the indexed loop writes
`dest.element(i,j) = source.element(i,j)` for every valid index, each output
element being computed from the pre-assignment values of all operands; the
unrolled strategy has the same result. `src i j` is the source element `(i,j)`
read in the store `σ0` of entry; the destination is the matrix at address
`dest`. -/
def UnrollAssignment (σ0 : Store α) (dest : Nat)
    (src : Nat → Nat → Except Error α) : Except Error (Store α) :=
  (List.range (σ0.mat dest).rows).foldlM
    (fun σ i => (List.range (σ0.mat dest).cols).foldlM
      (fun σ j => do
        let v ← src i j
        let d ← (σ.mat dest).set i j v
        pure (σ.setMat dest d)) σ) σ0

/-- The addresses of the matrix Leaves of an operand. -/
def MatrixNode.leaves : MatrixNode α → List Nat
  | .leaf ref => [ref]
  | .scalar _ => []
  | .UnaryMatrixOp _ sub => sub.leaves
  | .BinaryMatrixOp _ left right => left.leaves ++ right.leaves
  | .wrapped e => e.leaves

/-- An operand none of whose sub-operands is a `MatrixXpr` wrapper: each is a
matrix, a scalar, or a Unary/BinaryMatrixOp. -/
def MatrixNode.hoisted : MatrixNode α → Bool
  | .leaf _ => true
  | .scalar _ => true
  | .UnaryMatrixOp _ sub => sub.hoisted
  | .BinaryMatrixOp _ left right => left.hoisted && right.hoisted
  | .wrapped _ => false

end et

/-- Modelled from the spec: `matrix::operator=(const MatrixXpr&)`,
`CML_MAT_ASSIGN_FROM_MATXPR(=, et::OpAssign)` (fixed.h:209, dynamic.h:188; the
macro is defined in class_ops.h, not under src/), spec 4.5 and 4.6: the
extents are validated, then the assignment engine writes the matrix. -/
def CML_MAT_ASSIGN_FROM_MATXPR (σ : Store α) (this : Nat) (e : et.MatrixXpr α) :
    Except Error (Store α) := do
  let s ← e.expression.size σ
  if s ≠ (σ.mat this).size then
    .error .dimension_mismatch
  else
    et.UnrollAssignment σ this (fun i j => e.get σ i j)

/-- Modelled from the spec: `matrix::operator=(const matrix<E,AT>&)`,
`CML_MAT_ASSIGN_FROM_MAT(=, et::OpAssign)` (fixed.h:205, dynamic.h:184; the
macro is defined in class_ops.h, not under src/), spec 4.5 and 4.6, for a
source Leaf at address `m`. -/
def CML_MAT_ASSIGN_FROM_MAT (σ : Store α) (this : Nat) (m : Nat) :
    Except Error (Store α) :=
  if (σ.mat m).size ≠ (σ.mat this).size then
    .error .dimension_mismatch
  else
    et.UnrollAssignment σ this (fun i j => et.ExprTraits.get (σ.mat m) i j)

/-- Modelled from the spec: `matrix::operator=(const matrix_type&)`,
`CML_MAT_ASSIGN_FROM_MATTYPE` (fixed.h:203, dynamic.h:182; the macro is defined
in class_ops.h, not under src/), spec 4.6, for a source `m` that is a
temporary: an object of its own, outside the matrices of the program. Source
and destination have the same type, which fixes the extents of a fixed-size
matrix; no size check is modelled (the callers document that no error is
signaled for a matrix that is not square, fixed.h:105-106). -/
def CML_MAT_ASSIGN_FROM_MATTYPE (σ : Store α) (this : Nat) (m : matrix α) :
    Except Error (Store α) :=
  et.UnrollAssignment σ this (fun i j => et.ExprTraits.get m i j)

/-- Modelled from the spec: the namespace-scope function `transpose(m)`, of
which the source says "transpose() returns a temporary" (fixed.h:109,
dynamic.h:117; the function is not under src/): the transpose node of `m` is
evaluated into a temporary of the transposed extents. -/
def transpose [Inhabited α] (σ : Store α) (arg : Nat) : Except Error (matrix α) := do
  let e : et.MatrixXpr α := T_matrix arg
  let r ← e.rows σ
  let c ← e.cols σ
  let tmp : matrix α := et.detail.Resize_matrix r c
  tmp.assign σ e

/-- The call `transpose(*this)` in the body of the member `transpose()`
(fixed.h:110, dynamic.h:118). The unqualified name is looked up in the class
first and finds the member `transpose()` itself, which takes no argument; a
class member having been found, the functions of the enclosing namespaces are
not considered. No candidate takes the argument, so the body cannot be
instantiated. -/
def matrix.transpose_call (_σ : Store α) (_arg : Nat) : Except Error (matrix α) :=
  .error .ill_formed_instantiation

/-- `matrix::transpose()` (fixed.h:108-112, dynamic.h:116-120):
`*this = transpose(*this); return *this;`. -/
def matrix.transpose (σ : Store α) (this : Nat) : Except Error (Store α) := do
  let tmp ← matrix.transpose_call σ this
  CML_MAT_ASSIGN_FROM_MATTYPE σ this tmp

/-- Matrix basis tags of `cml/core/common.h` (lines 53-57). -/
inductive basis_tag where
  | row_basis
  | col_basis
  deriving DecidableEq, Repr

/-- The protected overloads `basis_element(i, j, row_basis)` and
`basis_element(i, j, col_basis)` (fixed.h:219-225, dynamic.h:236-242). -/
def matrix.basis_element_tagged (m : matrix α) (i j : Nat) :
    basis_tag → Except Error α
  | .row_basis => m.get i j
  | .col_basis => m.get j i

/-- `matrix::basis_element(i, j)` (fixed.h:183-185, dynamic.h:156-158):
`return basis_element(i,j,basis_orient());`, `basis_orient` being the
`BasisOrient` parameter of the matrix class. -/
def matrix.basis_element (basis_orient : basis_tag) (m : matrix α) (i j : Nat) :
    Except Error α :=
  m.basis_element_tagged i j basis_orient

/-- The protected overloads `set_basis_element(i, j, s, row_basis)` and
`set_basis_element(i, j, s, col_basis)` of the dynamic matrix
(dynamic.h:244-250). -/
def matrix.set_basis_element_tagged (m : matrix α) (i j : Nat) (s : α) :
    basis_tag → Except Error (matrix α)
  | .row_basis => m.set i j s
  | .col_basis => m.set j i s

/-- The member `set_basis_element(i, j, s)` of the dynamic matrix
(dynamic.h:161-163): `set_basis_element(i,j,s,basis_orient());`. -/
def matrix.set_basis_element (basis_orient : basis_tag) (m : matrix α) (i j : Nat)
    (s : α) : Except Error (matrix α) :=
  m.set_basis_element_tagged i j s basis_orient

/-- The expressions returned by the generated operator functions applied to
matrices, scalars and expressions so returned (matop_macros.h:38-228). -/
inductive Generated : et.MatrixXpr α → Prop where
  | mat_uniop (op : et.UnaryOp α) (arg : Nat) : Generated (CML_MAT_UNIOP op arg)
  | matxpr_uniop (op : et.UnaryOp α) (arg : et.MatrixXpr α) :
      Generated arg → Generated (CML_MATXPR_UNIOP op arg)
  | mat_mat (op : α → α → α) (left right : Nat) :
      Generated (CML_MAT_MAT_BINOP op left right)
  | mat_matxpr (op : α → α → α) (left : Nat) (right : et.MatrixXpr α) :
      Generated right → Generated (CML_MAT_MATXPR_BINOP op left right)
  | matxpr_mat (op : α → α → α) (left : et.MatrixXpr α) (right : Nat) :
      Generated left → Generated (CML_MATXPR_MAT_BINOP op left right)
  | matxpr_matxpr (op : α → α → α) (left right : et.MatrixXpr α) :
      Generated left → Generated right → Generated (CML_MATXPR_MATXPR_BINOP op left right)
  | mat_scalar (op : α → α → α) (left : Nat) (right : α) :
      Generated (CML_MAT_SCALAR_BINOP op left right)
  | scalar_mat (op : α → α → α) (left : α) (right : Nat) :
      Generated (CML_SCALAR_MAT_BINOP op left right)
  | matxpr_scalar (op : α → α → α) (left : et.MatrixXpr α) (right : α) :
      Generated left → Generated (CML_MATXPR_SCALAR_BINOP op left right)
  | scalar_matxpr (op : α → α → α) (left : α) (right : et.MatrixXpr α) :
      Generated right → Generated (CML_SCALAR_MATXPR_BINOP op left right)

/-- The state of an assignment to the matrix at `dest` when it is about to
write element `(i,j)`: the other matrices and the extents are those of the
store `σ0` on entry, the elements of the rows before `i` and of row `i` before
column `j` hold the values `v`, the other elements are those on entry. -/
structure AssignInv (σ0 : Store α) (dest : Nat) (v : Nat → Nat → α) (i j : Nat)
    (σ : Store α) : Prop where
  others : ∀ r, r ≠ dest → σ.mat r = σ0.mat r
  vec : σ.vec = σ0.vec
  rows : (σ.mat dest).rows = (σ0.mat dest).rows
  cols : (σ.mat dest).cols = (σ0.mat dest).cols
  elem : ∀ a b, (σ.mat dest).elem a b =
    if (a < i ∧ b < (σ0.mat dest).cols) ∨ (a = i ∧ b < j) then v a b
    else (σ0.mat dest).elem a b

/-! ## The products as the specification words them -/

/-- The row-vector times matrix product in the words of the specification:
the vector of length `cols` with `y[j] = Σ k < rows, x[k] * A(k,j)`. -/
def spec_mul_xA [Semiring α] (x : vector α) (A : matrix α) : vector α :=
  ⟨(List.range A.cols).map fun j => ∑ k ∈ Finset.range A.rows, x.elem k * A.elem k j⟩

/-- The sequential sum in the words of the specification: the left fold
`((f 0 + f 1) + ...) + f n`, which starts from the term `f 0` and adds one
term per index in ascending order. -/
def spec_left_fold [Add α] (f : Nat → α) : Nat → α
  | 0 => f 0
  | n + 1 => spec_left_fold f n + f (n + 1)

/-- The stored element `k` of a vector, for stating results (`default` past
the end). -/
def vector.stored [Inhabited α] (x : vector α) (k : Nat) : α :=
  (x.data[k]?).getD default

/-! ## Concrete containers for examples -/

/-- Integers with the addition `a + b = a + 2 * b`, which is not associative
and has no neutral element on the left. -/
structure skew where
  val : Int
  deriving DecidableEq, Repr

instance : Add skew := ⟨fun a b => ⟨a.val + 2 * b.val⟩⟩

instance : Mul skew := ⟨fun a b => ⟨a.val * b.val⟩⟩

instance : Inhabited skew := ⟨⟨0⟩⟩

/-- The 1x3 matrix with the row `[1, 2, 3]` over `skew`. -/
def matrix.skew13 : matrix skew :=
  ⟨1, 3, fun _ k => ⟨k + 1⟩⟩

/-- The 2x2 matrix with rows `[a, b]` and `[c, d]`. -/
def matrix.of22 (a b c d : α) : matrix α :=
  ⟨2, 2, fun i j => if i = 0 then (if j = 0 then a else b) else (if j = 0 then c else d)⟩

/-- The 1x2 matrix with the row `[a, b]`. -/
def matrix.of12 (a b : α) : matrix α :=
  ⟨1, 2, fun _ j => if j = 0 then a else b⟩

/-- A matrix with one row and no column. -/
def matrix.of10 : matrix Int :=
  ⟨1, 0, fun _ _ => 0⟩

/-- The 3x3 matrix `A` of `example3` (simple.cpp:111-113). -/
def example3_A : matrix Int :=
  ⟨3, 3, fun i j => if i = j ∨ (i = 0 ∧ j = 2) then 1 else 0⟩

/-- A store whose matrices are all `[[1,2],[3,4]]` and whose vectors are all
`[1,1]`. -/
def store22 : Store Int :=
  ⟨fun _ => matrix.of22 1 2 3 4, fun _ => ⟨[1, 1]⟩⟩

/-- The 3x3 identity, the matrix `A` of `example4` (simple.cpp:137-139). -/
def example4_A : matrix Int :=
  ⟨3, 3, fun i j => if i = j then 1 else 0⟩

/-- The matrices of `example3` (simple.cpp:109-117): `A` at address 0 and `B`
at address 1, equal, and the destination `C` at address 2. -/
def store_example3 : Store Int :=
  ⟨fun r => if r = 2 then ⟨3, 3, fun _ _ => 0⟩ else example3_A, fun _ => ⟨[]⟩⟩

/-- The matrices of `example4` (simple.cpp:134-143): `A` at address 0, `B` at
address 1 and the destination `C` at address 2. -/
def store_example4 : Store Int :=
  ⟨fun r => if r = 0 then example4_A else if r = 1 then example3_A
    else ⟨3, 3, fun _ _ => 0⟩, fun _ => ⟨[]⟩⟩

/-! ## Lemmas on the fault monad and the containers -/

@[simp] theorem ok_bind {β γ : Type} (a : β) (f : β → Except Error γ) :
    (Except.ok a >>= f) = f a := rfl

@[simp] theorem error_bind {β γ : Type} (e : Error) (f : β → Except Error γ) :
    (Except.error e >>= f) = Except.error e := rfl

@[simp] theorem pure_eq_ok {β : Type} (a : β) :
    (pure a : Except Error β) = Except.ok a := rfl

theorem matrix_get_of_lt (m : matrix α) {i j : Nat} (hi : i < m.rows)
    (hj : j < m.cols) : m.get i j = .ok (m.elem i j) := by
  simp [matrix.get, hi, hj]

theorem vector_get_of_lt [Zero α] (x : vector α) {k : Nat} (hk : k < x.size) :
    x.get k = .ok (x.elem k) := by
  have hk2 : k < x.data.length := hk
  simp [vector.get, vector.elem, List.getElem?_eq_getElem hk2]

/-- A loop writing `y[i] = g i` for `i < n`: when every `g i` returns `f i`,
the first `n` elements of the destination become `f 0, ..., f (n-1)` and the
others are kept. -/
theorem foldlM_vector_fill (g : Nat → Except Error α) (f : Nat → α)
    (y : vector α) (n : Nat) (hn : n ≤ y.size)
    (hf : ∀ i, i < n → g i = .ok (f i)) :
    ∃ y2 : vector α,
      (List.range n).foldlM (fun y i => do
          let v ← g i
          y.set i v) y = .ok y2
      ∧ y2.size = y.size
      ∧ ∀ j, y2.data[j]? = if j < n then some (f j) else y.data[j]? := by
  induction n with
  | zero => exact ⟨y, by simp⟩
  | succ n ih =>
    obtain ⟨y1, h1, hs, hd⟩ := ih (by omega) (fun i hi => hf i (by omega))
    have hlt : n < y1.size := by omega
    refine ⟨⟨y1.data.set n (f n)⟩, ?_, ?_, ?_⟩
    · rw [List.range_succ, List.foldlM_append, h1]
      simp [hf n (by omega), vector.set, hlt]
    · simpa [vector.size] using hs
    · intro j
      have hlt2 : n < y1.data.length := hlt
      by_cases hj : j = n
      · subst hj
        simp [List.getElem?_set, hlt2]
      · have hne : n ≠ j := fun h => hj h.symm
        rw [List.getElem?_set_ne hne, hd j]
        by_cases h2 : j < n
        · simp [h2, Nat.lt_succ_of_lt h2]
        · have h3 : ¬ j < n + 1 := by omega
          simp [h2, h3]

/-- The loop of `foldlM_vector_fill` over the whole destination. -/
theorem foldlM_vector_fill_all (g : Nat → Except Error α) (f : Nat → α)
    (y : vector α) (hf : ∀ i, i < y.size → g i = .ok (f i)) :
    (List.range y.size).foldlM (fun y i => do
        let v ← g i
        y.set i v) y = .ok ⟨(List.range y.size).map f⟩ := by
  obtain ⟨y2, h, hs, hd⟩ := foldlM_vector_fill g f y y.size (Nat.le_refl _) hf
  have e : y2 = ⟨(List.range y.size).map f⟩ := by
    cases y2 with
    | mk d =>
      congr 1
      apply List.ext_getElem?
      intro j
      have hj := hd j
      simp only at hj
      rw [hj]
      by_cases h2 : j < y.size
      · simp [h2]
      · have h3 : y.data.length ≤ j := by simpa [vector.size] using h2
        have h5 : (List.range y.size)[j]? = none :=
          List.getElem?_eq_none (by simpa [vector.size] using h3)
        simp [h2, List.getElem?_eq_none h3, h5]
  rw [h, e]

/-- A vector is the list of its elements read back. -/
theorem vector_eq_map_range [Inhabited α] (v : vector α) :
    (⟨(List.range v.size).map fun k => (v.data[k]?).getD default⟩ : vector α) = v := by
  cases v with
  | mk d =>
    congr 1
    apply List.ext_getElem?
    intro j
    by_cases h : j < d.length
    · simp [vector.size, List.getElem?_range h, List.getElem?_eq_getElem h]
    · have h3 : d.length ≤ j := by omega
      have h5 : (List.range d.length)[j]? = none :=
        List.getElem?_eq_none (by simpa using h3)
      simp [vector.size, List.getElem?_eq_none h3, h5]

/-- One row of a matrix fill: `d(i,j) = g j` for `j < k`. -/
theorem foldlM_matrix_fill_row (i : Nat) (g : Nat → Except Error α) (f : Nat → α)
    (d : matrix α) (hi : i < d.rows) (k : Nat) (hk : k ≤ d.cols)
    (hf : ∀ j, j < k → g j = .ok (f j)) :
    ∃ d2 : matrix α,
      (List.range k).foldlM (fun d j => do
          let v ← g j
          d.set i j v) d = .ok d2
      ∧ d2.rows = d.rows ∧ d2.cols = d.cols
      ∧ ∀ a b, d2.elem a b = if a = i ∧ b < k then f b else d.elem a b := by
  induction k with
  | zero => exact ⟨d, by simp⟩
  | succ k ih =>
    obtain ⟨d1, h1, hr, hc, he⟩ := ih (by omega) (fun j hj => hf j (by omega))
    have hi1 : i < d1.rows := by omega
    have hk1 : k < d1.cols := by omega
    refine ⟨⟨d1.rows, d1.cols, fun a b => if a = i ∧ b = k then f k else d1.elem a b⟩,
      ?_, hr, hc, ?_⟩
    · rw [List.range_succ, List.foldlM_append, h1]
      simp [hf k (by omega), matrix.set, hi1, hk1]
    · intro a b
      simp only [he]
      by_cases ha : a = i
      · by_cases hb : b = k
        · simp [ha, hb]
        · by_cases hb2 : b < k
          · have hb3 : b < k + 1 := by omega
            simp [ha, hb, hb2, hb3]
          · have hb3 : ¬ b < k + 1 := by omega
            simp [ha, hb, hb2, hb3]
      · simp [ha]

/-- The nested loops of a matrix fill: `d(i,j) = g i j` for `i < n`,
`j < C`. -/
theorem foldlM_matrix_fill (C : Nat) (g : Nat → Nat → Except Error α)
    (f : Nat → Nat → α) (d : matrix α) (hC : C ≤ d.cols) (n : Nat) (hn : n ≤ d.rows)
    (hf : ∀ i, i < n → ∀ j, j < C → g i j = .ok (f i j)) :
    ∃ d2 : matrix α,
      (List.range n).foldlM (fun d i => (List.range C).foldlM (fun d j => do
          let v ← g i j
          d.set i j v) d) d = .ok d2
      ∧ d2.rows = d.rows ∧ d2.cols = d.cols
      ∧ ∀ a b, d2.elem a b = if a < n ∧ b < C then f a b else d.elem a b := by
  induction n with
  | zero => exact ⟨d, by simp⟩
  | succ n ih =>
    obtain ⟨d1, h1, hr, hc, he⟩ := ih (by omega) (fun i hi => hf i (by omega))
    obtain ⟨d2, h2, hr2, hc2, he2⟩ := foldlM_matrix_fill_row n (g n) (f n) d1
      (by omega) C (by omega) (fun j hj => hf n (by omega) j hj)
    refine ⟨d2, ?_, by omega, by omega, ?_⟩
    · rw [List.range_succ, List.foldlM_append, h1]
      simp [h2]
    · intro a b
      rw [he2, he]
      by_cases hb : b < C
      · by_cases ha : a = n
        · simp [ha, hb]
        · by_cases ha2 : a < n
          · have ha3 : a < n + 1 := by omega
            simp [ha, hb, ha2, ha3]
          · have ha3 : ¬ a < n + 1 := by omega
            simp [ha, hb, ha2, ha3]
      · simp [hb]

namespace matvec_ops
namespace detail

/-- The inner loop run for `n` passes from the `k = 0` product. -/
theorem foldlM_mul_step [Semiring α] (A : matrix α) (x : vector α) (i : Nat)
    (hi : i < A.rows) (n : Nat) (hA : n + 1 ≤ A.cols) (hx : n + 1 ≤ x.size) :
    (List.range' 1 n).foldlM (mul_step A x i) (A.elem i 0 * x.elem 0)
      = .ok (∑ k ∈ Finset.range (n + 1), A.elem i k * x.elem k) := by
  induction n with
  | zero => simp
  | succ n ih =>
    have h1 := ih (by omega) (by omega)
    rw [List.range'_1_concat, List.foldlM_append, h1]
    have hk : n + 1 < A.cols := by omega
    have hk2 : n + 1 < x.size := by omega
    simp [mul_step, matrix_get_of_lt A hi hk, vector_get_of_lt x hk2,
      Finset.sum_range_succ _ (n + 1), Nat.add_comm 1 n]

/-- The value stored in `y[i]` by one pass of the outer loop. -/
theorem mul_sum_eq [Semiring α] (A : matrix α) (x : vector α) (i : Nat)
    (hi : i < A.rows) (hc : 1 ≤ A.cols) (hx : x.size = A.cols) :
    mul_sum A x i = .ok (∑ k ∈ Finset.range A.cols, A.elem i k * x.elem k) := by
  have h0 : 0 < A.cols := hc
  have h0x : 0 < x.size := by omega
  have h := foldlM_mul_step A x i hi (x.size - 1) (by omega) (by omega)
  have e : x.size - 1 + 1 = A.cols := by omega
  rw [e] at h
  simp [mul_sum, matrix_get_of_lt A hi h0, vector_get_of_lt x h0x, h]

/-- The kernel on a destination of extent `N`: when every pass computes
`f i`, the result holds `f 0, ..., f (N-1)`. -/
theorem mul_eq_of_sums [Add α] [Mul α] (A : matrix α) (x : vector α) (f : Nat → α)
    (y : vector α) (hf : ∀ i, i < y.size → mul_sum A x i = .ok (f i)) :
    mul y A x = .ok ⟨(List.range y.size).map f⟩ :=
  foldlM_vector_fill_all (mul_sum A x) f y hf

theorem size_Resize_vector [Inhabited α] (n : Nat) :
    (et.detail.Resize_vector n : vector α).size = n := by
  simp [et.detail.Resize_vector, vector.size]

/-- The `A*x` overload in closed form, for a matrix with at least one column. -/
theorem mul_Ax_eq_sums [Semiring α] [Inhabited α] (tag : size_tag) (A : matrix α)
    (x : vector α) (hc : 1 ≤ A.cols) (hx : x.size = A.cols) :
    mul_Ax tag A x = .ok ⟨(List.range A.rows).map
      (fun i => ∑ k ∈ Finset.range A.cols, A.elem i k * x.elem k)⟩ := by
  have hN : CheckedSize_matrix_vector A x tag = .ok A.rows := by
    cases tag <;> simp [CheckedSize_matrix_vector, hx]
  have hmul := mul_eq_of_sums A x
    (fun i => ∑ k ∈ Finset.range A.cols, A.elem i k * x.elem k)
    (et.detail.Resize_vector A.rows)
    (fun i hi => mul_sum_eq A x i (by rw [size_Resize_vector] at hi; exact hi) hc hx)
  rw [size_Resize_vector] at hmul
  simp only [mul_Ax, hN, ok_bind]
  exact hmul

/-- The `x*A` overload in closed form, for a square matrix with at least one
column: the kernel is the one of `A*x`. -/
theorem mul_xA_eq_sums_of_square [Semiring α] [Inhabited α] (tag : size_tag)
    (A : matrix α) (x : vector α) (hc : 1 ≤ A.cols) (hx : x.size = A.cols)
    (hsq : A.rows = A.cols) :
    mul_xA tag x A = .ok ⟨(List.range A.rows).map
      (fun i => ∑ k ∈ Finset.range A.cols, A.elem i k * x.elem k)⟩ := by
  have hN : CheckedSize_vector_matrix x A tag = .ok A.cols := by
    cases tag <;> simp [CheckedSize_vector_matrix, hx, hsq]
  have hmul := mul_eq_of_sums A x
    (fun i => ∑ k ∈ Finset.range A.cols, A.elem i k * x.elem k)
    (et.detail.Resize_vector A.rows)
    (fun i hi => mul_sum_eq A x i (by rw [size_Resize_vector] at hi; exact hi) hc hx)
  rw [size_Resize_vector] at hmul
  have e : (et.detail.Resize_vector A.cols : vector α)
      = et.detail.Resize_vector A.rows := by rw [hsq]
  simp only [mul_xA, hN, ok_bind]
  rw [e]
  exact hmul

/-- The kernel reads its matrix only through `A(i,k)`, `rows()` and `cols()`. -/
theorem mul_congr [Add α] [Mul α] (A B : matrix α) (x y : vector α)
    (hg : ∀ i k, A.get i k = B.get i k) : mul y A x = mul y B x := by
  have h1 : ∀ i, mul_step A x i = mul_step B x i := by
    intro i
    funext sum k
    simp [mul_step, hg]
  have h2 : mul_sum A x = mul_sum B x := by
    funext i
    simp [mul_sum, hg, h1]
  simp [mul, h2]

end detail
end matvec_ops

/-- Matrices with the same extents and the same elements inside them are read
alike. -/
theorem matrix_get_congr (A B : matrix α) (hr : A.rows = B.rows) (hc : A.cols = B.cols)
    (he : ∀ i, i < B.rows → ∀ j, j < B.cols → A.elem i j = B.elem i j) (i k : Nat) :
    A.get i k = B.get i k := by
  unfold matrix.get
  rw [hr, hc]
  by_cases h : i < B.rows ∧ k < B.cols
  · simp [h, he i h.1 k h.2]
  · simp [h]

/-- Materializing a vector expression into a temporary of its extent gives the
vector of its element values. -/
theorem vector_assign_eq [Inhabited α] (σ : Store α) (R : et.VectorXpr α)
    (v : vector α) (hs : R.size σ = .ok v.size)
    (hR : ∀ k, k < v.size → R.get σ k = v.get k) :
    (et.detail.Resize_vector v.size : vector α).assign σ R = .ok v := by
  have hsz := matvec_ops.detail.size_Resize_vector (α := α) v.size
  have hfill := foldlM_vector_fill_all (R.get σ) (fun k => (v.data[k]?).getD default)
    (et.detail.Resize_vector v.size) (by
      intro i hi
      rw [hsz] at hi
      have hi2 : i < v.data.length := hi
      rw [hR i hi]
      simp [vector.get, List.getElem?_eq_getElem hi2])
  rw [hsz, vector_eq_map_range] at hfill
  simp only [vector.assign, hs, ok_bind, hsz, ne_eq, not_true_eq_false, if_false]
  exact hfill

/-- Materializing a matrix expression into a temporary of its extents gives a
matrix with these extents and the element values of the expression. -/
theorem matrix_assign_spec [Inhabited α] (σ : Store α) (L : et.MatrixXpr α)
    (M : matrix α) (hs : L.expression.size σ = .ok (M.rows, M.cols))
    (hL : ∀ i, i < M.rows → ∀ j, j < M.cols → L.get σ i j = .ok (M.elem i j)) :
    ∃ T : matrix α,
      (et.detail.Resize_matrix M.rows M.cols : matrix α).assign σ L = .ok T
      ∧ T.rows = M.rows ∧ T.cols = M.cols
      ∧ ∀ i, i < M.rows → ∀ j, j < M.cols → T.elem i j = M.elem i j := by
  obtain ⟨T, h, hr, hc, he⟩ := foldlM_matrix_fill M.cols (L.get σ) M.elem
    (et.detail.Resize_matrix M.rows M.cols) (Nat.le_refl _) M.rows (Nat.le_refl _) hL
  refine ⟨T, ?_, hr, hc, ?_⟩
  · simp only [matrix.assign, hs, ok_bind, et.detail.Resize_matrix, matrix.size, ne_eq,
      not_true_eq_false, if_false]
    exact h
  · intro i hi j hj
    simp [he, hi, hj]

/-- The three dispatch forms of `A*x` with an expression operand, on
expressions with element values `M` and `v`. -/
theorem mul_Ax_forms [Add α] [Mul α] [Inhabited α] (σ : Store α) (tag : size_tag)
    (A : matrix α) (x : vector α) (L : et.MatrixXpr α) (R : et.VectorXpr α)
    (M : matrix α) (v : vector α)
    (hLs : L.expression.size σ = .ok (M.rows, M.cols))
    (hL : ∀ i, i < M.rows → ∀ j, j < M.cols → L.get σ i j = .ok (M.elem i j))
    (hRs : R.size σ = .ok v.size)
    (hR : ∀ k, k < v.size → R.get σ k = v.get k) :
    matvec_ops.mul_matrix_VectorXpr σ tag A R = matvec_ops.detail.mul_Ax tag A v ∧
    matvec_ops.mul_MatrixXpr_vector σ tag L x = matvec_ops.detail.mul_Ax tag M x ∧
    matvec_ops.mul_MatrixXpr_VectorXpr σ tag L R = matvec_ops.detail.mul_Ax tag M v := by
  obtain ⟨T, hT, hr, hc, he⟩ := matrix_assign_spec σ L M hLs hL
  have hv := vector_assign_eq σ R v hRs hR
  have hg := matrix_get_congr T M hr hc he
  have hcongr : ∀ z : vector α,
      matvec_ops.detail.mul_Ax tag T z = matvec_ops.detail.mul_Ax tag M z := by
    intro z
    have hN : CheckedSize_matrix_vector T z tag = CheckedSize_matrix_vector M z tag := by
      cases tag <;> simp [CheckedSize_matrix_vector, hr, hc]
    simp only [matvec_ops.detail.mul_Ax, hN, matvec_ops.detail.mul_congr T M z _ hg]
  have hrows : L.rows σ = .ok M.rows := by simp [et.MatrixXpr.rows, hLs]
  have hcols : L.cols σ = .ok M.cols := by simp [et.MatrixXpr.cols, hLs]
  refine ⟨?_, ?_, ?_⟩
  · simp only [matvec_ops.mul_matrix_VectorXpr, hRs, ok_bind, hv,
      matvec_ops.detail.mul_call]
  · simp only [matvec_ops.mul_MatrixXpr_vector, hrows, hcols, ok_bind, hT,
      matvec_ops.detail.mul_call, hcongr]
  · simp only [matvec_ops.mul_MatrixXpr_VectorXpr, hrows, hcols, hRs, ok_bind, hT, hv,
      matvec_ops.detail.mul_call, hcongr]

/-- The matrix left by `identity()`: no fault, the extents are kept and the
elements inside them are those of the identity. -/
theorem identity_spec [Zero α] [One α] (m : matrix α) :
    ∃ I : matrix α, m.identity = .ok I ∧ I.rows = m.rows ∧ I.cols = m.cols
      ∧ ∀ i, i < m.rows → ∀ j, j < m.cols → I.elem i j = if i = j then 1 else 0 := by
  obtain ⟨I, h, hr, hc, he⟩ := foldlM_matrix_fill m.cols
    (fun i j => Except.ok (if i = j then (1 : α) else 0))
    (fun i j => if i = j then (1 : α) else 0) m (Nat.le_refl _) m.rows (Nat.le_refl _)
    (fun _ _ _ _ => rfl)
  refine ⟨I, h, hr, hc, ?_⟩
  intro i hi j hj
  simp [he, hi, hj]

/-- A row of the identity times a vector is the element of the vector. -/
theorem sum_identity_row [Semiring α] (x : vector α) (n i : Nat) (hi : i < n) :
    (∑ k ∈ Finset.range n, (if i = k then (1 : α) else 0) * x.elem k) = x.elem i := by
  simp [ite_mul, Finset.sum_ite_eq, hi]

/-- A vector is the list of its `elem` values. -/
theorem vector_eq_map_elem [Zero α] (v : vector α) :
    (⟨(List.range v.size).map v.elem⟩ : vector α) = v := by
  cases v with
  | mk d =>
    congr 1
    apply List.ext_getElem?
    intro j
    by_cases h : j < d.length
    · simp [vector.size, vector.elem, List.getElem?_range h, List.getElem?_eq_getElem h]
    · have h3 : d.length ≤ j := by omega
      have h5 : (List.range d.length)[j]? = none :=
        List.getElem?_eq_none (by simpa using h3)
      simp [vector.size, List.getElem?_eq_none h3, h5]

/-! ## The assignment engine -/

theorem AssignInv_start (σ0 : Store α) (dest : Nat) (v : Nat → Nat → α) :
    AssignInv σ0 dest v 0 0 σ0 :=
  ⟨fun _ _ => rfl, rfl, rfl, rfl, fun a b => by simp⟩

/-- A full row `i` written is the state about to write row `i + 1`. -/
theorem AssignInv_next_row (σ0 : Store α) (dest : Nat) (v : Nat → Nat → α) (i : Nat)
    (σ : Store α) (h : AssignInv σ0 dest v i (σ0.mat dest).cols σ) :
    AssignInv σ0 dest v (i + 1) 0 σ := by
  refine ⟨h.others, h.vec, h.rows, h.cols, ?_⟩
  intro a b
  rw [h.elem a b]
  apply if_congr _ rfl rfl
  constructor
  · rintro (⟨h1, h2⟩ | ⟨h1, h2⟩)
    · exact Or.inl ⟨by omega, h2⟩
    · exact Or.inl ⟨by omega, h2⟩
  · rintro (⟨h1, h2⟩ | ⟨_, h2⟩)
    · by_cases ha : a < i
      · exact Or.inl ⟨ha, h2⟩
      · exact Or.inr ⟨by omega, h2⟩
    · omega

/-- The inner loop of the assignment engine on row `i`: when the source
elements are `v i j`, the first `k` elements of the row are written. -/
theorem UnrollAssignment_row (σ0 : Store α) (dest : Nat)
    (src : Nat → Nat → Except Error α) (v : Nat → Nat → α) (i : Nat)
    (hi : i < (σ0.mat dest).rows)
    (hv : ∀ j, j < (σ0.mat dest).cols → src i j = .ok (v i j))
    (k : Nat) (hk : k ≤ (σ0.mat dest).cols) (σ1 : Store α)
    (h1 : AssignInv σ0 dest v i 0 σ1) :
    ∃ σ2 : Store α,
      (List.range k).foldlM (fun σ j => do
          let x ← src i j
          let d ← (σ.mat dest).set i j x
          pure (σ.setMat dest d)) σ1 = .ok σ2
      ∧ AssignInv σ0 dest v i k σ2 := by
  induction k with
  | zero => exact ⟨σ1, by simp, h1⟩
  | succ k ih =>
    obtain ⟨σ2, h2, inv2⟩ := ih (by omega)
    have hs := hv k (by omega)
    have hr : i < (σ2.mat dest).rows := by rw [inv2.rows]; exact hi
    have hc : k < (σ2.mat dest).cols := by rw [inv2.cols]; omega
    refine ⟨σ2.setMat dest ⟨(σ2.mat dest).rows, (σ2.mat dest).cols,
      fun a b => if a = i ∧ b = k then v i k else (σ2.mat dest).elem a b⟩, ?_, ?_⟩
    · rw [List.range_succ, List.foldlM_append, h2]
      simp [hs, matrix.set, hr, hc]
    · refine ⟨?_, ?_, ?_, ?_, ?_⟩
      · intro r hr2
        simp [Store.setMat, hr2, inv2.others r hr2]
      · simp [Store.setMat, inv2.vec]
      · simp [Store.setMat, inv2.rows]
      · simp [Store.setMat, inv2.cols]
      · intro a b
        simp only [Store.setMat, if_true]
        rw [inv2.elem a b]
        by_cases ha : a = i
        · by_cases hb : b = k
          · subst ha; subst hb
            simp
          · by_cases hb2 : b < k
            · have hb3 : b < k + 1 := by omega
              simp [ha, hb, hb2, hb3]
            · have hb3 : ¬ b < k + 1 := by omega
              simp [ha, hb, hb2, hb3]
        · simp [ha]

/-- The rows of the assignment engine before row `n`. -/
theorem UnrollAssignment_rows (σ0 : Store α) (dest : Nat)
    (src : Nat → Nat → Except Error α) (v : Nat → Nat → α)
    (hv : ∀ i, i < (σ0.mat dest).rows → ∀ j, j < (σ0.mat dest).cols →
      src i j = .ok (v i j))
    (n : Nat) (hn : n ≤ (σ0.mat dest).rows) :
    ∃ σ2 : Store α,
      (List.range n).foldlM (fun σ i => (List.range (σ0.mat dest).cols).foldlM
        (fun σ j => do
          let x ← src i j
          let d ← (σ.mat dest).set i j x
          pure (σ.setMat dest d)) σ) σ0 = .ok σ2
      ∧ AssignInv σ0 dest v n 0 σ2 := by
  induction n with
  | zero => exact ⟨σ0, by simp, AssignInv_start σ0 dest v⟩
  | succ n ih =>
    obtain ⟨σ1, h1, inv1⟩ := ih (by omega)
    obtain ⟨σ2, h2, inv2⟩ := UnrollAssignment_row σ0 dest src v n (by omega)
      (fun j hj => hv n (by omega) j hj) (σ0.mat dest).cols
      (Nat.le_refl _) σ1 inv1
    refine ⟨σ2, ?_, AssignInv_next_row σ0 dest v n σ2 inv2⟩
    rw [List.range_succ, List.foldlM_append, h1]
    simp only [ok_bind, List.foldlM_cons, List.foldlM_nil]
    rw [h2]
    rfl

/-- The assignment engine: when the source elements are `v i j`, the engine
returns a store in which the destination holds `v` and nothing else has
changed. -/
theorem UnrollAssignment_spec (σ0 : Store α) (dest : Nat)
    (src : Nat → Nat → Except Error α) (v : Nat → Nat → α)
    (hv : ∀ i, i < (σ0.mat dest).rows → ∀ j, j < (σ0.mat dest).cols →
      src i j = .ok (v i j)) :
    ∃ σ2 : Store α, et.UnrollAssignment σ0 dest src = .ok σ2
      ∧ (∀ r, r ≠ dest → σ2.mat r = σ0.mat r) ∧ σ2.vec = σ0.vec
      ∧ (σ2.mat dest).rows = (σ0.mat dest).rows
      ∧ (σ2.mat dest).cols = (σ0.mat dest).cols
      ∧ ∀ i, i < (σ0.mat dest).rows → ∀ j, j < (σ0.mat dest).cols →
          (σ2.mat dest).elem i j = v i j := by
  obtain ⟨σ2, h, inv⟩ := UnrollAssignment_rows σ0 dest src v hv
    (σ0.mat dest).rows (Nat.le_refl _)
  refine ⟨σ2, h, inv.others, inv.vec, inv.rows, inv.cols, ?_⟩
  intro i hi j hj
  rw [inv.elem i j]
  simp [hi, hj]

/-- The elements of an operand depend on the store through its Leaves only. -/
theorem get_congr_leaves (σ σ2 : Store α) (e : et.MatrixNode α)
    (h : ∀ r, r ∈ e.leaves → σ2.mat r = σ.mat r) (i j : Nat) :
    e.get σ2 i j = e.get σ i j := by
  induction e generalizing i j with
  | leaf ref => simp [et.MatrixNode.get, h ref (by simp [et.MatrixNode.leaves])]
  | scalar s => simp [et.MatrixNode.get]
  | UnaryMatrixOp op sub ih =>
    have h2 := ih (fun r hr => h r (by simpa [et.MatrixNode.leaves] using hr))
    cases op with
    | elementwise f => simp [et.MatrixNode.get, h2]
    | transpose => simp [et.MatrixNode.get, h2]
  | BinaryMatrixOp op left right ihl ihr =>
    have hl := ihl (fun r hr => h r (by simp [et.MatrixNode.leaves, hr]))
    have hr := ihr (fun r hr => h r (by simp [et.MatrixNode.leaves, hr]))
    simp [et.MatrixNode.get, hl, hr]
  | wrapped e ih =>
    have h2 := ih (fun r hr => h r (by simpa [et.MatrixNode.leaves] using hr))
    simp [et.MatrixNode.get, h2]

/-- The assignment of an expression: the destination gets the element values
the expression has on entry, and nothing else changes. -/
theorem assign_MATXPR_spec (σ : Store α) (this : Nat) (e : et.MatrixXpr α)
    (v : Nat → Nat → α)
    (hsize : e.expression.size σ = .ok (σ.mat this).size)
    (hv : ∀ i, i < (σ.mat this).rows → ∀ j, j < (σ.mat this).cols →
      e.get σ i j = .ok (v i j)) :
    ∃ σ2 : Store α, CML_MAT_ASSIGN_FROM_MATXPR σ this e = .ok σ2
      ∧ (∀ r, r ≠ this → σ2.mat r = σ.mat r) ∧ σ2.vec = σ.vec
      ∧ (σ2.mat this).rows = (σ.mat this).rows
      ∧ (σ2.mat this).cols = (σ.mat this).cols
      ∧ ∀ i, i < (σ.mat this).rows → ∀ j, j < (σ.mat this).cols →
          (σ2.mat this).elem i j = v i j := by
  obtain ⟨σ2, h, rest⟩ := UnrollAssignment_spec σ this (fun i j => e.get σ i j) v hv
  refine ⟨σ2, ?_, rest⟩
  simp only [CML_MAT_ASSIGN_FROM_MATXPR, hsize, ok_bind, ne_eq, not_true_eq_false, if_false]
  exact h

theorem isScalar_eq_true (e : et.MatrixNode α) (h : e.isScalar = true) :
    ∃ s, e = .scalar s := by
  cases e <;> simp [et.MatrixNode.isScalar] at h
  exact ⟨_, rfl⟩

/-- An operand has an element at every index inside its validated extents. -/
theorem get_ok_of_size (σ : Store α) (e : et.MatrixNode α) :
    ∀ R C, e.size σ = .ok (R, C) → ∀ i j, i < R → j < C →
      ∃ x, e.get σ i j = .ok x := by
  induction e with
  | leaf ref =>
    intro R C hs i j hi hj
    simp only [et.MatrixNode.size, et.ExprTraits.size, matrix.size, Except.ok.injEq,
      Prod.mk.injEq] at hs
    exact ⟨_, by
      simp only [et.MatrixNode.get, et.ExprTraits.get]
      exact matrix_get_of_lt _ (by omega) (by omega)⟩
  | scalar s =>
    intro R C _ i j _ _
    exact ⟨s, rfl⟩
  | UnaryMatrixOp op sub ih =>
    intro R C hs i j hi hj
    cases op with
    | elementwise f =>
      obtain ⟨x, hx⟩ := ih R C (by simpa [et.MatrixNode.size] using hs) i j hi hj
      exact ⟨f x, by simp [et.MatrixNode.get, hx]⟩
    | transpose =>
      simp only [et.MatrixNode.size] at hs
      cases hsub : sub.size σ with
      | error err => simp [hsub] at hs
      | ok s1 =>
        simp only [hsub, ok_bind, pure_eq_ok, Except.ok.injEq, Prod.mk.injEq] at hs
        obtain ⟨x, hx⟩ := ih s1.1 s1.2 (by simp [hsub]) j i (by omega) (by omega)
        exact ⟨x, by simp [et.MatrixNode.get, hx]⟩
  | BinaryMatrixOp op left right ihl ihr =>
    intro R C hs i j hi hj
    simp only [et.MatrixNode.size] at hs
    by_cases h1 : left.isScalar = true
    · rw [h1] at hs
      simp only [if_true] at hs
      obtain ⟨s, rfl⟩ := isScalar_eq_true left h1
      obtain ⟨y, hy⟩ := ihr R C hs i j hi hj
      exact ⟨op s y, by simp [et.MatrixNode.get, hy]⟩
    · have e1 : left.isScalar = false := by simpa using h1
      rw [e1] at hs
      simp only [Bool.false_eq_true, if_false] at hs
      by_cases h2 : right.isScalar = true
      · rw [h2] at hs
        simp only [if_true] at hs
        obtain ⟨s, rfl⟩ := isScalar_eq_true right h2
        obtain ⟨x, hx⟩ := ihl R C hs i j hi hj
        exact ⟨op x s, by simp [et.MatrixNode.get, hx]⟩
      · have e2 : right.isScalar = false := by simpa using h2
        rw [e2] at hs
        simp only [Bool.false_eq_true, if_false] at hs
        cases hl : left.size σ with
        | error err => simp [hl] at hs
        | ok sl =>
          cases hr : right.size σ with
          | error err => simp [hl, hr] at hs
          | ok sr =>
            simp only [hl, hr, ok_bind] at hs
            by_cases heq : sl = sr
            · simp only [heq, if_true, pure_eq_ok, Except.ok.injEq] at hs
              subst heq
              obtain ⟨x, hx⟩ := ihl R C (by rw [hl, hs]) i j hi hj
              obtain ⟨y, hy⟩ := ihr R C (by rw [hr, hs]) i j hi hj
              exact ⟨op x y, by simp [et.MatrixNode.get, hx, hy]⟩
            · simp [heq] at hs
  | wrapped e ih =>
    intro R C hs i j hi hj
    obtain ⟨x, hx⟩ := ih R C (by simpa [et.MatrixNode.size] using hs) i j hi hj
    exact ⟨x, by simp [et.MatrixNode.get, hx]⟩

/-- The temporary returned by `transpose(m)`: the transposed extents and
elements of the matrix at `arg`. -/
theorem transpose_spec [Inhabited α] (σ : Store α) (arg : Nat) :
    ∃ tmp : matrix α, transpose σ arg = .ok tmp
      ∧ tmp.rows = (σ.mat arg).cols ∧ tmp.cols = (σ.mat arg).rows
      ∧ ∀ i, i < (σ.mat arg).cols → ∀ j, j < (σ.mat arg).rows →
          tmp.elem i j = (σ.mat arg).elem j i := by
  have hs : (T_matrix arg : et.MatrixXpr α).expression.size σ
      = .ok ((σ.mat arg).cols, (σ.mat arg).rows) := by
    simp [T_matrix, CML_MAT_UNIOP, et.MatrixNode.size, et.ExprTraits.size, matrix.size]
  obtain ⟨T, hT, hr, hc, he⟩ := matrix_assign_spec σ (T_matrix arg)
    ⟨(σ.mat arg).cols, (σ.mat arg).rows, fun i j => (σ.mat arg).elem j i⟩ hs (by
      intro i hi j hj
      simp only [T_matrix, CML_MAT_UNIOP, et.MatrixXpr.get, et.MatrixNode.get,
        et.ExprTraits.get]
      exact matrix_get_of_lt _ hj hi)
  refine ⟨T, ?_, hr, hc, he⟩
  simp only [transpose, et.MatrixXpr.rows, et.MatrixXpr.cols, hs, ok_bind, pure_eq_ok]
  exact hT

/-! ## The reads of the kernel and the order of its sums -/

/-- A loop in the fault monad, whose pass `k` returns exactly when `P k` holds,
returns exactly when `P` holds at every index of the loop. -/
theorem foldlM_ok_iff {β ι : Type} (f : β → ι → Except Error β) (Inv : β → Prop)
    (P : ι → Prop) (hinv : ∀ s k t, Inv s → f s k = .ok t → Inv t)
    (hok : ∀ s k, Inv s → ((∃ t, f s k = .ok t) ↔ P k)) :
    ∀ (l : List ι) (s : β), Inv s → ((∃ r, l.foldlM f s = .ok r) ↔ ∀ k ∈ l, P k) := by
  intro l
  induction l with
  | nil =>
    intro s _
    simp
  | cons a t ih =>
    intro s hs
    rw [List.foldlM_cons]
    cases h : f s a with
    | error e =>
      have hp : ¬ P a := by
        intro hp
        obtain ⟨u, hu⟩ := (hok s a hs).2 hp
        rw [h] at hu
        cases hu
      simp [hp]
    | ok u =>
      have hp : P a := (hok s a hs).1 ⟨u, h⟩
      have h2 := ih u (hinv s a u hs h)
      simp [hp, h2]

theorem matrix_get_ok_iff (m : matrix α) (i j : Nat) :
    (∃ v, m.get i j = .ok v) ↔ i < m.rows ∧ j < m.cols := by
  unfold matrix.get
  by_cases h : i < m.rows ∧ j < m.cols
  · simp [h]
  · simp [h]

theorem vector_get_ok_iff (x : vector α) (k : Nat) :
    (∃ v, x.get k = .ok v) ↔ k < x.size := by
  unfold vector.get vector.size
  by_cases h : k < x.data.length
  · simp [List.getElem?_eq_getElem h, h]
  · have h2 : x.data[k]? = none := List.getElem?_eq_none (by omega)
    simp [h2, h]

theorem vector_get_stored [Inhabited α] (x : vector α) {k : Nat} (hk : k < x.size) :
    x.get k = .ok (x.stored k) := by
  have hk2 : k < x.data.length := hk
  simp [vector.get, vector.stored, List.getElem?_eq_getElem hk2]

namespace matvec_ops
namespace detail

/-- One pass of the inner loop returns exactly when its two reads are inside
the containers. -/
theorem mul_step_ok_iff [Add α] [Mul α] (A : matrix α) (x : vector α) (i : Nat)
    (s : α) (k : Nat) :
    (∃ t, mul_step A x i s k = .ok t) ↔ (i < A.rows ∧ k < A.cols) ∧ k < x.size := by
  unfold mul_step
  constructor
  · rintro ⟨t, ht⟩
    cases ha : A.get i k with
    | error e => rw [ha] at ht; cases ht
    | ok a =>
      cases hb : x.get k with
      | error e => rw [ha, hb] at ht; cases ht
      | ok b =>
        exact ⟨(matrix_get_ok_iff A i k).1 ⟨a, ha⟩, (vector_get_ok_iff x k).1 ⟨b, hb⟩⟩
  · rintro ⟨h1, h2⟩
    obtain ⟨a, ha⟩ := (matrix_get_ok_iff A i k).2 h1
    obtain ⟨b, hb⟩ := (vector_get_ok_iff x k).2 h2
    exact ⟨s + a * b, by rw [ha, hb]; rfl⟩

/-- The computation of one sum returns exactly when the reads at `k = 0` and
at every `k` of the inner loop are inside the containers. -/
theorem mul_sum_ok_iff [Add α] [Mul α] (A : matrix α) (x : vector α) (i : Nat) :
    (∃ s, mul_sum A x i = .ok s) ↔
      ∀ k ∈ 0 :: List.range' 1 (x.size - 1), (i < A.rows ∧ k < A.cols) ∧ k < x.size := by
  have hloop := fun s => foldlM_ok_iff (mul_step A x i) (fun _ => True)
    (fun k => (i < A.rows ∧ k < A.cols) ∧ k < x.size) (fun _ _ _ _ _ => trivial)
    (fun s k _ => mul_step_ok_iff A x i s k) (List.range' 1 (x.size - 1)) s trivial
  unfold mul_sum
  cases ha : A.get i 0 with
  | error e =>
    have h1 : ¬ (i < A.rows ∧ 0 < A.cols) := by
      intro h
      obtain ⟨a, ha2⟩ := (matrix_get_ok_iff A i 0).2 h
      rw [ha] at ha2
      cases ha2
    simp [h1]
  | ok a =>
    have h1 := (matrix_get_ok_iff A i 0).1 ⟨a, ha⟩
    cases hb : x.get 0 with
    | error e =>
      have h2 : ¬ 0 < x.size := by
        intro h
        obtain ⟨b, hb2⟩ := (vector_get_ok_iff x 0).2 h
        rw [hb] at hb2
        cases hb2
      simp [h2]
    | ok b =>
      have h2 := (vector_get_ok_iff x 0).1 ⟨b, hb⟩
      simp only [ok_bind, List.forall_mem_cons]
      rw [hloop (a * b)]
      simp [h1, h2]

/-- The reads of one pass of the outer loop are inside the containers exactly
when those at `k = 0` and at every `k` of the inner loop are. -/
theorem mul_sum_reads_in_range_iff (A : matrix α) (x : vector α) (i : Nat) :
    (∀ r ∈ mul_sum_reads x.size i, r.in_range A x) ↔
      ∀ k ∈ 0 :: List.range' 1 (x.size - 1), (i < A.rows ∧ k < A.cols) ∧ k < x.size := by
  constructor
  · intro h k hk
    have hm : read.matrix_elem i k ∈ mul_sum_reads x.size i := by
      rcases List.mem_cons.1 hk with rfl | hk2
      · simp [mul_sum_reads]
      · simp only [mul_sum_reads, List.mem_append, List.mem_flatMap]
        exact Or.inr ⟨k, hk2, by simp⟩
    have hv : read.vector_elem k ∈ mul_sum_reads x.size i := by
      rcases List.mem_cons.1 hk with rfl | hk2
      · simp [mul_sum_reads]
      · simp only [mul_sum_reads, List.mem_append, List.mem_flatMap]
        exact Or.inr ⟨k, hk2, by simp⟩
    exact ⟨h _ hm, h _ hv⟩
  · intro h r hr
    simp only [mul_sum_reads, List.mem_append, List.mem_flatMap] at hr
    rcases hr with hr | ⟨k, hk, hr⟩
    · have h0 := h 0 (List.mem_cons_self _ _)
      simp only [List.mem_cons, List.mem_singleton, List.not_mem_nil, or_false] at hr
      rcases hr with rfl | rfl
      · exact h0.1
      · exact h0.2
    · have hk2 := h k (List.mem_cons_of_mem _ hk)
      simp only [List.mem_cons, List.mem_singleton, List.not_mem_nil, or_false] at hr
      rcases hr with rfl | rfl
      · exact hk2.1
      · exact hk2.2

/-- The kernel returns a vector exactly when every read it performs is inside
the containers. -/
theorem mul_ok_iff_reads_in_range [Add α] [Mul α] (y : vector α) (A : matrix α)
    (x : vector α) :
    (∃ r, mul y A x = .ok r) ↔ ∀ r ∈ mul_reads y.size x.size, r.in_range A x := by
  have hloop := foldlM_ok_iff
    (fun (y : vector α) i => do
      let sum ← mul_sum A x i
      y.set i sum)
    (fun z => z.size = y.size)
    (fun i => i < y.size ∧ ∃ s, mul_sum A x i = .ok s)
    (by
      intro s k t hs h
      cases hm : mul_sum A x k with
      | error e => simp [hm] at h
      | ok v =>
        simp only [hm, ok_bind, vector.set] at h
        by_cases hk : k < s.size
        · simp only [hk, if_true, Except.ok.injEq] at h
          rw [← h]
          simpa [vector.size] using hs
        · simp [hk] at h)
    (by
      intro s k hs
      cases hm : mul_sum A x k with
      | error e => simp [hm]
      | ok v =>
        simp only [hm, ok_bind, vector.set, hs]
        by_cases hk : k < y.size
        · simp [hk]
        · simp [hk])
    (List.range y.size) y rfl
  unfold mul
  rw [hloop]
  simp only [mul_reads, List.mem_flatMap, List.mem_range]
  constructor
  · rintro h r ⟨i, hi, hr⟩
    exact (mul_sum_reads_in_range_iff A x i).2 ((mul_sum_ok_iff A x i).1 (h i hi).2) r hr
  · intro h i hi
    exact ⟨hi, (mul_sum_ok_iff A x i).2
      ((mul_sum_reads_in_range_iff A x i).1 (fun r hr => h r ⟨i, hi, hr⟩))⟩

/-- The reads of the kernel are inside the containers exactly when every pass
index is a row of the matrix and every `k` read, `0` and `1, ..., x.size() - 1`,
is a column of the matrix and an index of the vector. -/
theorem mul_reads_in_range_iff (y_size : Nat) (A : matrix α) (x : vector α) :
    (∀ r ∈ mul_reads y_size x.size, r.in_range A x) ↔
      ∀ i, i < y_size → ∀ k, (k = 0 ∨ (1 ≤ k ∧ k < x.size)) →
        (i < A.rows ∧ k < A.cols) ∧ k < x.size := by
  simp only [mul_reads, List.mem_flatMap, List.mem_range]
  constructor
  · intro h i hi k hk
    refine (mul_sum_reads_in_range_iff A x i).1 (fun r hr => h r ⟨i, hi, hr⟩) k ?_
    rcases hk with rfl | hk
    · exact List.mem_cons_self _ _
    · exact List.mem_cons_of_mem _ (List.mem_range'_1.2 (by omega))
  · rintro h r ⟨i, hi, hr⟩
    refine (mul_sum_reads_in_range_iff A x i).2 ?_ r hr
    intro k hk
    refine h i hi k ?_
    rcases List.mem_cons.1 hk with rfl | hk2
    · exact Or.inl rfl
    · have := List.mem_range'_1.1 hk2
      exact Or.inr (by omega)

/-- The inner loop run for `n` passes from the `k = 0` product is the left
fold of the products, whatever the addition is. -/
theorem foldlM_mul_step_fold [Add α] [Mul α] [Inhabited α] (A : matrix α)
    (x : vector α) (i : Nat) (hi : i < A.rows) (n : Nat) (hA : n + 1 ≤ A.cols)
    (hx : n + 1 ≤ x.size) :
    (List.range' 1 n).foldlM (mul_step A x i) (A.elem i 0 * x.stored 0)
      = .ok (spec_left_fold (fun k => A.elem i k * x.stored k) n) := by
  induction n with
  | zero => rfl
  | succ n ih =>
    have h1 := ih (by omega) (by omega)
    rw [List.range'_1_concat, List.foldlM_append, h1]
    have hk : n + 1 < A.cols := by omega
    have hk2 : n + 1 < x.size := by omega
    simp [mul_step, matrix_get_of_lt A hi hk, vector_get_stored x hk2, spec_left_fold,
      Nat.add_comm 1 n]

/-- The value stored in `y[i]` by one pass of the outer loop is the left fold
of the products, whatever the addition is. -/
theorem mul_sum_fold [Add α] [Mul α] [Inhabited α] (A : matrix α) (x : vector α)
    (i : Nat) (hi : i < A.rows) (hx1 : 1 ≤ x.size) (hx : x.size ≤ A.cols) :
    mul_sum A x i
      = .ok (spec_left_fold (fun k => A.elem i k * x.stored k) (x.size - 1)) := by
  have h0 : 0 < A.cols := by omega
  have h0x : 0 < x.size := hx1
  have h := foldlM_mul_step_fold A x i hi (x.size - 1) (by omega) (by omega)
  simp only [mul_sum, matrix_get_of_lt A hi h0, vector_get_stored x h0x, ok_bind]
  exact h

end detail
end matvec_ops

namespace matvec_ops
namespace detail

end detail
end matvec_ops

/-- Assigning to a square matrix the temporary of the namespace-scope
`transpose` of it leaves the transposed elements and keeps the extents and the
other matrices. -/
theorem transpose_assign_spec [Inhabited α] (σ : Store α) (this : Nat)
    (hsq : (σ.mat this).rows = (σ.mat this).cols) :
    ∃ σ2 : Store α,
      (cml.transpose σ this >>= fun tmp => CML_MAT_ASSIGN_FROM_MATTYPE σ this tmp)
        = .ok σ2 ∧
      (∀ r, r ≠ this → σ2.mat r = σ.mat r) ∧
      (σ2.mat this).rows = (σ.mat this).rows ∧
      (σ2.mat this).cols = (σ.mat this).cols ∧
      ∀ i, i < (σ.mat this).rows → ∀ j, j < (σ.mat this).cols →
        (σ2.mat this).get i j = .ok ((σ.mat this).elem j i) := by
  obtain ⟨tmp, htmp, hr, hc, he⟩ := transpose_spec σ this
  obtain ⟨σ2, h, hoth, _, hr2, hc2, he2⟩ := UnrollAssignment_spec σ this
    (fun i j => et.ExprTraits.get tmp i j) (fun i j => (σ.mat this).elem j i)
    (by
      intro i hi j hj
      simp only [et.ExprTraits.get]
      rw [matrix_get_of_lt tmp (by omega) (by omega), he i (by omega) j (by omega)])
  refine ⟨σ2, ?_, hoth, hr2, hc2, ?_⟩
  · simp only [htmp, ok_bind, CML_MAT_ASSIGN_FROM_MATTYPE]
    exact h
  · intro i hi j hj
    rw [matrix_get_of_lt (σ2.mat this) (by omega) (by omega), he2 i hi j hj]

/-! ## The claims -/

/-- C1: for every matrix `A` with `r` rows and `c ≥ 1` columns and every
vector `x` of length `c`, the product `A*x` returns a vector `y` of length `r`
with `y[i] = Σ k < c, A(i,k) * x[k]` for every `i < r`. -/
theorem C1_mul_Ax_elements [Semiring α] [Inhabited α] (tag : size_tag)
    (A : matrix α) (x : vector α) (hc : 1 ≤ A.cols) (hx : x.size = A.cols) :
    ∃ y : vector α, matvec_ops.detail.mul_Ax tag A x = .ok y ∧ y.size = A.rows ∧
      ∀ i, i < A.rows →
        y.get i = .ok (∑ k ∈ Finset.range A.cols, A.elem i k * x.elem k) := by
  refine ⟨_, matvec_ops.detail.mul_Ax_eq_sums tag A x hc hx, ?_, ?_⟩
  · simp [vector.size]
  · intro i hi
    simp [vector.get, List.getElem?_range hi, hi]

/-- C1 at `A = [[1,2],[3,4]]`, `x = [1,1]`: the product is `[3,7]`. -/
theorem C1_mul_Ax_elements_witness :
    matvec_ops.detail.mul_Ax .dynamic_size_tag (matrix.of22 (1 : Int) 2 3 4) ⟨[1, 1]⟩
      = .ok ⟨[3, 7]⟩ ∧
    ∃ y : vector Int,
      matvec_ops.detail.mul_Ax .dynamic_size_tag (matrix.of22 (1 : Int) 2 3 4) ⟨[1, 1]⟩
        = .ok y ∧ y.size = (matrix.of22 (1 : Int) 2 3 4).rows ∧
      ∀ i, i < (matrix.of22 (1 : Int) 2 3 4).rows →
        y.get i = .ok (∑ k ∈ Finset.range (matrix.of22 (1 : Int) 2 3 4).cols,
          (matrix.of22 (1 : Int) 2 3 4).elem i k * (⟨[1, 1]⟩ : vector Int).elem k) :=
  ⟨rfl, C1_mul_Ax_elements .dynamic_size_tag (matrix.of22 (1 : Int) 2 3 4) ⟨[1, 1]⟩
    (by decide) (by decide)⟩

/-- C2: at `x = [1,1]`, `A = [[1,2],[3,4]]` the row-vector times matrix
product of the code is `[3,7]`, which is `A*x`, while `x*A` with
`y[j] = Σ k, x[k] * A(k,j)` is `[4,6]`. -/
theorem C2_mul_xA_returns_Ax :
    matvec_ops.detail.mul_xA .dynamic_size_tag ⟨[1, 1]⟩ (matrix.of22 (1 : Int) 2 3 4)
      = .ok ⟨[3, 7]⟩ ∧
    (spec_mul_xA ⟨[1, 1]⟩ (matrix.of22 (1 : Int) 2 3 4)).data = [4, 6] ∧
    matvec_ops.detail.mul_xA .dynamic_size_tag ⟨[1, 1]⟩ (matrix.of22 (1 : Int) 2 3 4)
      = matvec_ops.detail.mul_Ax .dynamic_size_tag (matrix.of22 (1 : Int) 2 3 4) ⟨[1, 1]⟩ :=
  ⟨rfl, by decide, rfl⟩

/-- C3: when the length of a dynamic-extent vector `x` differs from the column
count of `A`, the product `A*x` raises the dimension-mismatch error, whatever
the elements are: the size check precedes the allocation of the result and the
multiply loop, so no result vector exists and no element is written. -/
theorem C3_dimension_mismatch [Add α] [Mul α] [Inhabited α] (A : matrix α)
    (x : vector α) (h : A.cols ≠ x.size) :
    matvec_ops.detail.mul_Ax .dynamic_size_tag A x = .error .dimension_mismatch ∧
    matvec_ops.mul_matrix_vector .dynamic_size_tag A x = .error .dimension_mismatch ∧
    operator_mul_matrix_vector .dynamic_size_tag .col_vector A x
      = .error .dimension_mismatch := by
  have e : matvec_ops.detail.mul_Ax .dynamic_size_tag A x
      = .error .dimension_mismatch := by
    simp [matvec_ops.detail.mul_Ax, CheckedSize_matrix_vector, h]
  refine ⟨e, e, ?_⟩
  simp only [operator_mul_matrix_vector, CML_STATIC_REQUIRE_M, same_type]
  exact e

/-- C3 at a 3x3 matrix and a vector of length 4. -/
theorem C3_dimension_mismatch_witness :
    example3_A.cols ≠ (⟨[1, 2, 3, 4]⟩ : vector Int).size ∧
    matvec_ops.detail.mul_Ax .dynamic_size_tag example3_A ⟨[1, 2, 3, 4]⟩
      = .error .dimension_mismatch ∧
    matvec_ops.mul_matrix_vector .dynamic_size_tag example3_A ⟨[1, 2, 3, 4]⟩
      = .error .dimension_mismatch ∧
    operator_mul_matrix_vector .dynamic_size_tag .col_vector example3_A ⟨[1, 2, 3, 4]⟩
      = .error .dimension_mismatch :=
  ⟨by decide, C3_dimension_mismatch example3_A ⟨[1, 2, 3, 4]⟩ (by decide)⟩

/-- C5: in each of the three matrix x vector forms of `operator*` (matrix x
vector, matrix x VectorXpr, MatrixXpr x VectorXpr) the static assertion passes
exactly when the orientation tag of the vector operand is `col_vector`; then
the result is that of `matvec_ops::mul`, and with a `row_vector` tag the
product is rejected whatever the operands are. -/
theorem C5_matrix_vector_orientation [Add α] [Mul α] [Inhabited α] (σ : Store α)
    (tag : size_tag) (O : oriented_tag) (A : matrix α) (x : vector α)
    (L : et.MatrixXpr α) (R : et.VectorXpr α) :
    (CML_STATIC_REQUIRE_M (same_type O .col_vector)
        .mvmul_expects_properly_oriented_args_error = .ok () ↔ O = .col_vector) ∧
    operator_mul_matrix_vector tag O A x =
      (if O = .col_vector then matvec_ops.mul_matrix_vector tag A x
       else .error .mvmul_expects_properly_oriented_args_error) ∧
    operator_mul_matrix_VectorXpr σ tag O A R =
      (if O = .col_vector then matvec_ops.mul_matrix_VectorXpr σ tag A R
       else .error .mvmul_expects_properly_oriented_args_error) ∧
    operator_mul_MatrixXpr_VectorXpr σ tag O L R =
      (if O = .col_vector then matvec_ops.mul_MatrixXpr_VectorXpr σ tag L R
       else .error .mvmul_expects_properly_oriented_args_error) := by
  cases O
  · refine ⟨by simp [CML_STATIC_REQUIRE_M, same_type], ?_, ?_, ?_⟩ <;>
      simp [operator_mul_matrix_vector, operator_mul_matrix_VectorXpr,
        operator_mul_MatrixXpr_VectorXpr, CML_STATIC_REQUIRE_M, same_type]
  · refine ⟨by simp [CML_STATIC_REQUIRE_M, same_type], ?_, ?_, ?_⟩ <;>
      simp [operator_mul_matrix_vector, operator_mul_matrix_VectorXpr,
        operator_mul_MatrixXpr_VectorXpr, CML_STATIC_REQUIRE_M, same_type]

/-- C6: the vector x matrix form of `operator*` accepts exactly a
`row_vector` operand, but the VectorXpr x matrix and VectorXpr x MatrixXpr
forms compare the orientation tag with `col_vector`: they reject every
row-oriented left operand and pass every column-oriented one on to
`matvec_ops::mul`. -/
theorem C6_vector_matrix_orientation [Add α] [Mul α] [Inhabited α] (σ : Store α)
    (tag : size_tag) (x : vector α) (A : matrix α)
    (L : et.VectorXpr α) (R : et.MatrixXpr α) :
    operator_mul_vector_matrix tag .row_vector x A
      = matvec_ops.mul_vector_matrix tag x A ∧
    operator_mul_vector_matrix tag .col_vector x A
      = .error .mvmul_expects_properly_oriented_args_error ∧
    operator_mul_VectorXpr_matrix σ tag .row_vector L A
      = .error .mvmul_expects_properly_oriented_args_error ∧
    operator_mul_VectorXpr_matrix σ tag .col_vector L A
      = matvec_ops.mul_VectorXpr_matrix σ tag L A ∧
    operator_mul_VectorXpr_MatrixXpr σ tag .row_vector L R
      = .error .mvmul_expects_properly_oriented_args_error ∧
    operator_mul_VectorXpr_MatrixXpr σ tag .col_vector L R
      = matvec_ops.mul_VectorXpr_MatrixXpr σ tag L R := by
  refine ⟨?_, ?_, ?_, ?_, ?_, ?_⟩ <;>
    simp [operator_mul_vector_matrix, operator_mul_VectorXpr_matrix,
      operator_mul_VectorXpr_MatrixXpr, CML_STATIC_REQUIRE_M, same_type]

/-- C7: let `L` be a matrix expression whose element values are those of the
matrix `M`, and `R` a vector expression whose element values are those of the
vector `v`. Then `matvec_ops::mul` on a Leaf and an expression, on an
expression and a Leaf, and on two expressions returns what the Leaf x Leaf
form returns on the materialized values, faults included. -/
theorem C7_mul_Ax_forms_agree [Add α] [Mul α] [Inhabited α] (σ : Store α)
    (tag : size_tag) (A : matrix α) (x : vector α) (L : et.MatrixXpr α)
    (R : et.VectorXpr α) (M : matrix α) (v : vector α)
    (hLs : L.expression.size σ = .ok (M.rows, M.cols))
    (hL : ∀ i, i < M.rows → ∀ j, j < M.cols → L.get σ i j = .ok (M.elem i j))
    (hRs : R.size σ = .ok v.size)
    (hR : ∀ k, k < v.size → R.get σ k = v.get k) :
    matvec_ops.mul_matrix_VectorXpr σ tag A R = matvec_ops.mul_matrix_vector tag A v ∧
    matvec_ops.mul_MatrixXpr_vector σ tag L x = matvec_ops.mul_matrix_vector tag M x ∧
    matvec_ops.mul_MatrixXpr_VectorXpr σ tag L R
      = matvec_ops.mul_matrix_vector tag M v := by
  have h := mul_Ax_forms σ tag A x L R M v hLs hL hRs hR
  simpa [matvec_ops.mul_matrix_vector, matvec_ops.detail.mul_call] using h

/-- C7 at the expressions `A+A`, `x+x` with `A = [[1,2],[3,4]]`, `x = [1,1]`,
whose values are `[[2,4],[6,8]]` and `[2,2]`. -/
theorem C7_mul_Ax_forms_agree_witness :
    matvec_ops.mul_matrix_VectorXpr store22 .dynamic_size_tag (matrix.of22 1 2 3 4)
        ⟨.BinaryVectorOp (fun a b => a + b) (.leaf 0) (.leaf 0)⟩
      = matvec_ops.mul_matrix_vector .dynamic_size_tag (matrix.of22 1 2 3 4) ⟨[2, 2]⟩ ∧
    matvec_ops.mul_MatrixXpr_vector store22 .dynamic_size_tag
        (CML_MAT_MAT_BINOP (fun a b => a + b) 0 0) ⟨[1, 1]⟩
      = matvec_ops.mul_matrix_vector .dynamic_size_tag (matrix.of22 2 4 6 8) ⟨[1, 1]⟩ ∧
    matvec_ops.mul_MatrixXpr_VectorXpr store22 .dynamic_size_tag
        (CML_MAT_MAT_BINOP (fun a b => a + b) 0 0)
        ⟨.BinaryVectorOp (fun a b => a + b) (.leaf 0) (.leaf 0)⟩
      = matvec_ops.mul_matrix_vector .dynamic_size_tag (matrix.of22 2 4 6 8) ⟨[2, 2]⟩ :=
  C7_mul_Ax_forms_agree store22 .dynamic_size_tag (matrix.of22 1 2 3 4) ⟨[1, 1]⟩
    (CML_MAT_MAT_BINOP (fun a b => a + b) 0 0)
    ⟨.BinaryVectorOp (fun a b => a + b) (.leaf 0) (.leaf 0)⟩
    (matrix.of22 2 4 6 8) ⟨[2, 2]⟩ rfl
    (by
      intro i hi j hj
      have hi2 : i < 2 := hi
      have hj2 : j < 2 := hj
      interval_cases i <;> interval_cases j <;> rfl)
    rfl
    (by
      intro k hk
      have hk2 : k < 2 := hk
      interval_cases k <;> rfl)

/-- C8: the vector x MatrixXpr form of `matvec_ops::mul` never returns a
vector: it selects the `A*x` overload with the vector as `A` and the
temporary matrix as `x`, for which the kernel is ill-formed. At `x = [1,1]`
and the expression `A+A`, `A = [[1,2],[3,4]]`, the Leaf x Leaf form on the
materialized values and the two forms with a VectorXpr return `[6,14]`. -/
theorem C8_vector_MatrixXpr_form :
    (∀ (σ : Store Int) (tag : size_tag) (left : vector Int) (right : et.MatrixXpr Int)
        (y : vector Int), matvec_ops.mul_vector_MatrixXpr σ tag left right ≠ .ok y) ∧
    matvec_ops.mul_vector_MatrixXpr store22 .dynamic_size_tag ⟨[1, 1]⟩
        (CML_MAT_MAT_BINOP (fun a b => a + b) 0 0)
      = .error .ill_formed_instantiation ∧
    matvec_ops.mul_vector_matrix .dynamic_size_tag ⟨[1, 1]⟩ (matrix.of22 (2 : Int) 4 6 8)
      = .ok ⟨[6, 14]⟩ ∧
    matvec_ops.mul_VectorXpr_matrix store22 .dynamic_size_tag ⟨.leaf 0⟩
        (matrix.of22 (2 : Int) 4 6 8)
      = .ok ⟨[6, 14]⟩ ∧
    matvec_ops.mul_VectorXpr_MatrixXpr store22 .dynamic_size_tag ⟨.leaf 0⟩
        (CML_MAT_MAT_BINOP (fun a b => a + b) 0 0)
      = .ok ⟨[6, 14]⟩ := by
  refine ⟨?_, rfl, rfl, rfl, rfl⟩
  intro σ tag left right y
  have key : ∀ e : Except Error (matrix Int),
      (e >>= fun tmp => matvec_ops.detail.mul_call tag (.vec left) (.mat tmp) .mul_Ax)
        ≠ .ok y := by
    intro e
    cases e <;> simp [matvec_ops.detail.mul_call]
  unfold matvec_ops.mul_vector_MatrixXpr
  cases et.MatrixXpr.rows σ right with
  | error e => simp
  | ok r =>
    cases et.MatrixXpr.cols σ right with
    | error e => simp
    | ok c => exact key _

/-- C9: for every `n ≥ 1`, every `n x n` matrix and every vector `x` of length
`n`, `identity()` leaves a matrix `I` for which `I*x` returns `x`. -/
theorem C9_identity_mul [Semiring α] [Inhabited α] (tag : size_tag) (n : Nat)
    (m : matrix α) (x : vector α) (hn : 1 ≤ n) (hr : m.rows = n) (hc : m.cols = n)
    (hx : x.size = n) :
    ∃ I : matrix α, m.identity = .ok I ∧ matvec_ops.detail.mul_Ax tag I x = .ok x := by
  obtain ⟨I, h, hIr, hIc, he⟩ := identity_spec m
  refine ⟨I, h, ?_⟩
  rw [matvec_ops.detail.mul_Ax_eq_sums tag I x (by omega) (by omega)]
  have hrows : I.rows = x.size := by omega
  have hcols : I.cols = n := by omega
  have hf : ∀ i, i ∈ List.range x.size →
      (∑ k ∈ Finset.range I.cols, I.elem i k * x.elem k) = x.elem i := by
    intro i hi
    have hi2 : i < n := by
      have := List.mem_range.mp hi
      omega
    rw [hcols, ← sum_identity_row x n i hi2]
    apply Finset.sum_congr rfl
    intro k hk
    have hk2 : k < n := Finset.mem_range.mp hk
    rw [he i (by omega) k (by omega)]
  rw [hrows, List.map_congr_left hf, vector_eq_map_elem]

/-- C9 at `n = 2`, `x = [5,7]`: `identity()` on a 2x2 matrix, then `A*x`,
returns `[5,7]`. -/
theorem C9_identity_mul_witness :
    ∃ I : matrix Int, (matrix.of22 (1 : Int) 2 3 4).identity = .ok I ∧
      matvec_ops.detail.mul_Ax .dynamic_size_tag I ⟨[5, 7]⟩ = .ok ⟨[5, 7]⟩ :=
  C9_identity_mul .dynamic_size_tag 2 (matrix.of22 (1 : Int) 2 3 4) ⟨[5, 7]⟩
    (by decide) rfl rfl rfl

/-- C10: let `a`, `b` be the elements at `(i,j)` of the matrices `A`, `B`,
and `x`, `y` those of the expressions `X`, `Y`. For every binary operator
`op`, the node built by each of the eight generated forms has at `(i,j)` the
element `op(l(i,j), r(i,j))`, a scalar side contributing its stored value: the
element depends on the operands' element values only, not on the form. -/
theorem C10_binop_forms_element (σ : Store α) (op : α → α → α) (A B : Nat)
    (X Y : et.MatrixXpr α) (s : α) (i j : Nat) (a b x y : α)
    (hA : (σ.mat A).get i j = .ok a) (hB : (σ.mat B).get i j = .ok b)
    (hX : X.get σ i j = .ok x) (hY : Y.get σ i j = .ok y) :
    (CML_MAT_MAT_BINOP op A B).get σ i j = .ok (op a b) ∧
    (CML_MAT_MATXPR_BINOP op A Y).get σ i j = .ok (op a y) ∧
    (CML_MATXPR_MAT_BINOP op X B).get σ i j = .ok (op x b) ∧
    (CML_MATXPR_MATXPR_BINOP op X Y).get σ i j = .ok (op x y) ∧
    (CML_MAT_SCALAR_BINOP op A s).get σ i j = .ok (op a s) ∧
    (CML_SCALAR_MAT_BINOP op s B).get σ i j = .ok (op s b) ∧
    (CML_MATXPR_SCALAR_BINOP op X s).get σ i j = .ok (op x s) ∧
    (CML_SCALAR_MATXPR_BINOP op s Y).get σ i j = .ok (op s y) := by
  have hX2 : X.expression.get σ i j = .ok x := hX
  have hY2 : Y.expression.get σ i j = .ok y := hY
  refine ⟨?_, ?_, ?_, ?_, ?_, ?_, ?_, ?_⟩ <;>
    simp [et.MatrixXpr.get, et.MatrixNode.get, et.ExprTraits.get, CML_MAT_MAT_BINOP,
      CML_MAT_MATXPR_BINOP, CML_MATXPR_MAT_BINOP, CML_MATXPR_MATXPR_BINOP,
      CML_MAT_SCALAR_BINOP, CML_SCALAR_MAT_BINOP, CML_MATXPR_SCALAR_BINOP,
      CML_SCALAR_MATXPR_BINOP, hA, hB, hX2, hY2]

/-- C10 at `op = +`, `A = B = [[1,2],[3,4]]`, `X = Y = A+A`, `s = 10` and
`(i,j) = (1,0)`: the operand elements are `3` and `6`. -/
theorem C10_binop_forms_element_witness :
    (CML_MAT_MAT_BINOP (fun a b => a + b) 0 0).get store22 1 0 = .ok (3 + 3) ∧
    (CML_MAT_MATXPR_BINOP (fun a b => a + b) 0
      (CML_MAT_MAT_BINOP (fun a b => a + b) 0 0)).get store22 1 0 = .ok (3 + 6) ∧
    (CML_MATXPR_MAT_BINOP (fun a b => a + b)
      (CML_MAT_MAT_BINOP (fun a b => a + b) 0 0) 0).get store22 1 0 = .ok (6 + 3) ∧
    (CML_MATXPR_MATXPR_BINOP (fun a b => a + b)
      (CML_MAT_MAT_BINOP (fun a b => a + b) 0 0)
      (CML_MAT_MAT_BINOP (fun a b => a + b) 0 0)).get store22 1 0 = .ok (6 + 6) ∧
    (CML_MAT_SCALAR_BINOP (fun a b => a + b) 0 10).get store22 1 0 = .ok (3 + 10) ∧
    (CML_SCALAR_MAT_BINOP (fun a b => a + b) 10 0).get store22 1 0 = .ok (10 + 3) ∧
    (CML_MATXPR_SCALAR_BINOP (fun a b => a + b)
      (CML_MAT_MAT_BINOP (fun a b => a + b) 0 0) 10).get store22 1 0 = .ok (6 + 10) ∧
    (CML_SCALAR_MATXPR_BINOP (fun a b => a + b) 10
      (CML_MAT_MAT_BINOP (fun a b => a + b) 0 0)).get store22 1 0 = .ok (10 + 6) :=
  C10_binop_forms_element store22 (fun a b => a + b) 0 0
    (CML_MAT_MAT_BINOP (fun a b => a + b) 0 0) (CML_MAT_MAT_BINOP (fun a b => a + b) 0 0)
    10 1 0 3 3 6 6 rfl rfl rfl rfl

/-- C11: for a matrix `A` and an expression `X`, the transpose node has at
`(i,j)` the element `(j,i)` of its operand, read from the operand itself (the
node holds the Leaf by reference, or the hoisted expression, and no copy), and
has the swapped extents. Consequently, for matrices `A`, `B` and a destination
`C` of fitting extents (3x3 in `example3`), `C = T(A)+B` leaves
`C(i,j) = A(j,i) + B(i,j)`. -/
theorem C11_transpose_node [Add α] (σ : Store α) (a b c : Nat) (X : et.MatrixXpr α)
    (hA : (σ.mat a).size = ((σ.mat c).cols, (σ.mat c).rows))
    (hB : (σ.mat b).size = (σ.mat c).size) :
    (∀ i j, (T_matrix a).get σ i j = (σ.mat a).get j i) ∧
    (∀ i j, (T_MatrixXpr X).get σ i j = X.get σ j i) ∧
    (T_matrix a : et.MatrixXpr α).expression.size σ
      = .ok ((σ.mat a).cols, (σ.mat a).rows) ∧
    (T_matrix a : et.MatrixXpr α).expression = .UnaryMatrixOp .transpose (.leaf a) ∧
    (T_MatrixXpr X).expression = .UnaryMatrixOp .transpose X.expression ∧
    ∃ σ2 : Store α,
      CML_MAT_ASSIGN_FROM_MATXPR σ c
        (CML_MATXPR_MAT_BINOP (fun x y => x + y) (T_matrix a) b) = .ok σ2 ∧
      (∀ r, r ≠ c → σ2.mat r = σ.mat r) ∧
      ∀ i, i < (σ.mat c).rows → ∀ j, j < (σ.mat c).cols →
        (σ2.mat c).get i j = .ok ((σ.mat a).elem j i + (σ.mat b).elem i j) := by
  simp only [matrix.size, Prod.mk.injEq] at hA hB
  refine ⟨fun i j => rfl, fun i j => rfl, ?_, rfl, rfl, ?_⟩
  · simp [T_matrix, CML_MAT_UNIOP, et.MatrixNode.size, et.ExprTraits.size, matrix.size]
  · obtain ⟨σ2, h, hoth, _, hr, hc, he⟩ := assign_MATXPR_spec σ c
      (CML_MATXPR_MAT_BINOP (fun x y => x + y) (T_matrix a) b)
      (fun i j => (σ.mat a).elem j i + (σ.mat b).elem i j)
      (by
        simp [CML_MATXPR_MAT_BINOP, T_matrix, CML_MAT_UNIOP, et.MatrixNode.size,
          et.MatrixNode.isScalar, et.ExprTraits.size, matrix.size, hA, hB])
      (by
        intro i hi j hj
        simp only [CML_MATXPR_MAT_BINOP, T_matrix, CML_MAT_UNIOP, et.MatrixXpr.get,
          et.MatrixNode.get, et.ExprTraits.get]
        rw [matrix_get_of_lt (σ.mat a) (by omega) (by omega),
          matrix_get_of_lt (σ.mat b) (by omega) (by omega)]
        rfl)
    refine ⟨σ2, h, hoth, ?_⟩
    intro i hi j hj
    rw [matrix_get_of_lt (σ2.mat c) (by omega) (by omega), he i hi j hj]

/-- C11 at `example3`: after `C = T(A)+B`, `C(0,0) = 2` and `C(2,0) = 1`. -/
theorem C11_transpose_node_witness :
    ∃ σ2 : Store Int,
      CML_MAT_ASSIGN_FROM_MATXPR store_example3 2
        (CML_MATXPR_MAT_BINOP (fun x y => x + y) (T_matrix 0) 1) = .ok σ2 ∧
      (σ2.mat 2).get 0 0 = .ok 2 ∧ (σ2.mat 2).get 2 0 = .ok 1 := by
  obtain ⟨_, _, _, _, _, σ2, h, _, he⟩ :=
    C11_transpose_node store_example3 0 1 2 ⟨.leaf 0⟩ rfl rfl
  exact ⟨σ2, h, he 0 (by decide) 0 (by decide), he 2 (by decide) 0 (by decide)⟩

/-- C12: for every square matrix `A`, the assignment `A = A + transpose(A)`
returns without fault and leaves `A(i,j) = A_old(i,j) + A_old(j,i)` for every
`(i,j)`, `A_old` being the matrix before the assignment; no other matrix
changes. -/
theorem C12_self_assignment [Add α] (σ : Store α) (a : Nat)
    (hsq : (σ.mat a).rows = (σ.mat a).cols) :
    ∃ σ2 : Store α,
      CML_MAT_ASSIGN_FROM_MATXPR σ a
        (CML_MAT_MATXPR_BINOP (fun x y => x + y) a (T_matrix a)) = .ok σ2 ∧
      (∀ r, r ≠ a → σ2.mat r = σ.mat r) ∧
      ∀ i, i < (σ.mat a).rows → ∀ j, j < (σ.mat a).cols →
        (σ2.mat a).get i j = .ok ((σ.mat a).elem i j + (σ.mat a).elem j i) := by
  obtain ⟨σ2, h, hoth, _, hr, hc, he⟩ := assign_MATXPR_spec σ a
    (CML_MAT_MATXPR_BINOP (fun x y => x + y) a (T_matrix a))
    (fun i j => (σ.mat a).elem i j + (σ.mat a).elem j i)
    (by
      simp [CML_MAT_MATXPR_BINOP, T_matrix, CML_MAT_UNIOP, et.MatrixNode.size,
        et.MatrixNode.isScalar, et.ExprTraits.size, matrix.size, hsq])
    (by
      intro i hi j hj
      simp only [CML_MAT_MATXPR_BINOP, T_matrix, CML_MAT_UNIOP, et.MatrixXpr.get,
        et.MatrixNode.get, et.ExprTraits.get]
      rw [matrix_get_of_lt (σ.mat a) hi hj,
        matrix_get_of_lt (σ.mat a) (by omega) (by omega)]
      rfl)
  refine ⟨σ2, h, hoth, ?_⟩
  intro i hi j hj
  rw [matrix_get_of_lt (σ2.mat a) (by omega) (by omega), he i hi j hj]

/-- C12 at `A = [[1,2],[3,4]]`: `A = A + transpose(A)` leaves
`[[2,5],[5,8]]`. -/
theorem C12_self_assignment_witness :
    ∃ σ2 : Store Int,
      CML_MAT_ASSIGN_FROM_MATXPR store22 0
        (CML_MAT_MATXPR_BINOP (fun x y => x + y) 0 (T_matrix 0)) = .ok σ2 ∧
      (σ2.mat 0).get 0 0 = .ok 2 ∧ (σ2.mat 0).get 0 1 = .ok 5 ∧
      (σ2.mat 0).get 1 0 = .ok 5 ∧ (σ2.mat 0).get 1 1 = .ok 8 := by
  obtain ⟨σ2, h, _, he⟩ := C12_self_assignment store22 0 rfl
  exact ⟨σ2, h, he 0 (by decide) 0 (by decide), he 0 (by decide) 1 (by decide),
    he 1 (by decide) 0 (by decide), he 1 (by decide) 1 (by decide)⟩

/-- C13: for every destination matrix and every source of the same shape, a
matrix or an expression, `dest = source` returns without fault and leaves
`dest(i,j) = source.element(i,j)` for every valid `(i,j)`, the source element
being the one the source has before the assignment, and also after it when the
destination is not among the Leaves of the source. -/
theorem C13_assignment (σ : Store α) (this m : Nat) (e : et.MatrixXpr α)
    (hms : (σ.mat m).size = (σ.mat this).size)
    (hsize : e.expression.size σ = .ok (σ.mat this).size) :
    (∃ σ2 : Store α, CML_MAT_ASSIGN_FROM_MAT σ this m = .ok σ2 ∧
      ∀ i, i < (σ.mat this).rows → ∀ j, j < (σ.mat this).cols →
        ∃ x, (σ2.mat this).get i j = .ok x ∧ (σ.mat m).get i j = .ok x ∧
          (σ2.mat m).get i j = .ok x) ∧
    (∃ σ2 : Store α, CML_MAT_ASSIGN_FROM_MATXPR σ this e = .ok σ2 ∧
      ∀ i, i < (σ.mat this).rows → ∀ j, j < (σ.mat this).cols →
        ∃ x, (σ2.mat this).get i j = .ok x ∧ e.get σ i j = .ok x ∧
          (this ∉ e.expression.leaves → e.get σ2 i j = .ok x)) := by
  have hms2 := hms
  simp only [matrix.size, Prod.mk.injEq] at hms2
  constructor
  · obtain ⟨σ2, h, hoth, _, hr, hc, he⟩ := UnrollAssignment_spec σ this
      (fun i j => et.ExprTraits.get (σ.mat m) i j) (fun i j => (σ.mat m).elem i j)
      (by
        intro i hi j hj
        exact matrix_get_of_lt _ (by omega) (by omega))
    refine ⟨σ2, ?_, ?_⟩
    · simp only [CML_MAT_ASSIGN_FROM_MAT, hms, ne_eq, not_true_eq_false, if_false]
      exact h
    · intro i hi j hj
      have hd : (σ2.mat this).get i j = .ok ((σ.mat m).elem i j) := by
        rw [matrix_get_of_lt (σ2.mat this) (by omega) (by omega), he i hi j hj]
      refine ⟨_, hd, matrix_get_of_lt _ (by omega) (by omega), ?_⟩
      by_cases hm : m = this
      · rw [hm, hd, hm]
      · rw [hoth m hm]
        exact matrix_get_of_lt _ (by omega) (by omega)
  · have hv : ∀ i, i < (σ.mat this).rows → ∀ j, j < (σ.mat this).cols →
        e.get σ i j = .ok (match e.get σ i j with
          | .ok x => x
          | .error _ => (σ.mat this).elem i j) := by
      intro i hi j hj
      obtain ⟨x, hx⟩ := get_ok_of_size σ e.expression _ _ hsize i j hi hj
      have hx2 : e.get σ i j = .ok x := hx
      rw [hx2]
    obtain ⟨σ2, h, hoth, _, hr, hc, he⟩ := assign_MATXPR_spec σ this e _ hsize hv
    refine ⟨σ2, h, ?_⟩
    intro i hi j hj
    refine ⟨_, ?_, hv i hi j hj, ?_⟩
    · rw [matrix_get_of_lt (σ2.mat this) (by omega) (by omega), he i hi j hj]
    · intro hnot
      rw [← hv i hi j hj]
      apply get_congr_leaves
      intro r hr2
      exact hoth r (fun h2 => hnot (h2 ▸ hr2))

/-- C13 at `example4`: `C = A` and `C = A+B` for the 3x3 matrices `A`, `B`
and the destination `C` at addresses 0, 1 and 2; `C(0,0) = 2` after
`C = A+B`. -/
theorem C13_assignment_witness :
    (∃ σ2 : Store Int, CML_MAT_ASSIGN_FROM_MAT store_example4 2 0 = .ok σ2 ∧
      ∀ i, i < 3 → ∀ j, j < 3 →
        ∃ x, (σ2.mat 2).get i j = .ok x ∧ (store_example4.mat 0).get i j = .ok x ∧
          (σ2.mat 0).get i j = .ok x) ∧
    (∃ σ2 : Store Int,
      CML_MAT_ASSIGN_FROM_MATXPR store_example4 2
        (CML_MAT_MAT_BINOP (fun x y => x + y) 0 1) = .ok σ2 ∧
      ∀ i, i < 3 → ∀ j, j < 3 →
        ∃ x, (σ2.mat 2).get i j = .ok x ∧
          (CML_MAT_MAT_BINOP (fun x y => x + y) 0 1).get store_example4 i j = .ok x ∧
          (2 ∉ (CML_MAT_MAT_BINOP (fun x y => x + y) 0 1
              : et.MatrixXpr Int).expression.leaves →
            (CML_MAT_MAT_BINOP (fun x y => x + y) 0 1).get σ2 i j = .ok x)) :=
  C13_assignment store_example4 2 0 (CML_MAT_MAT_BINOP (fun x y => x + y) 0 1) rfl rfl

/-- C14: for every matrix `A` and every expression `X`, square or not,
`transpose(transpose(·))` has the shape of its operand and, at every `(i,j)`,
the element of its operand. -/
theorem C14_transpose_involution (σ : Store α) (a : Nat) (X : et.MatrixXpr α)
    (i j : Nat) :
    (T_MatrixXpr (T_matrix a)).expression.size σ = .ok (σ.mat a).size ∧
    (T_MatrixXpr (T_matrix a)).get σ i j = (σ.mat a).get i j ∧
    (T_MatrixXpr (T_MatrixXpr X)).expression.size σ = X.expression.size σ ∧
    (T_MatrixXpr (T_MatrixXpr X)).get σ i j = X.get σ i j := by
  refine ⟨?_, rfl, ?_, rfl⟩
  · simp [T_MatrixXpr, T_matrix, CML_MATXPR_UNIOP, CML_MAT_UNIOP, et.MatrixNode.size,
      et.ExprTraits.size, matrix.size]
  · simp only [T_MatrixXpr, CML_MATXPR_UNIOP, et.MatrixNode.size]
    cases X.expression.size σ with
    | error err => rfl
    | ok s1 => rfl

/-- C15: let `a` be the element at `(i,j)` of the matrix `A` and `x` that of
the expression `X`. For every scalar `s` the nodes `A*s` and `X*s` have at
`(i,j)` the elements `a*s` and `x*s`, the nodes `s*A` and `s*X` the elements
`s*a` and `s*x`; the scalar operand has the element `s` at every index. -/
theorem C15_scalar_broadcast [Mul α] (σ : Store α) (A : Nat) (X : et.MatrixXpr α)
    (s : α) (i j : Nat) (a x : α)
    (hA : (σ.mat A).get i j = .ok a) (hX : X.get σ i j = .ok x) :
    (CML_MAT_SCALAR_BINOP (fun p q => p * q) A s).get σ i j = .ok (a * s) ∧
    (CML_SCALAR_MAT_BINOP (fun p q => p * q) s A).get σ i j = .ok (s * a) ∧
    (CML_MATXPR_SCALAR_BINOP (fun p q => p * q) X s).get σ i j = .ok (x * s) ∧
    (CML_SCALAR_MATXPR_BINOP (fun p q => p * q) s X).get σ i j = .ok (s * x) ∧
    ∀ k l, (et.MatrixNode.scalar s).get σ k l = .ok s := by
  have hX2 : X.expression.get σ i j = .ok x := hX
  refine ⟨?_, ?_, ?_, ?_, fun k l => rfl⟩ <;>
    simp [et.MatrixXpr.get, et.MatrixNode.get, et.ExprTraits.get, CML_MAT_SCALAR_BINOP,
      CML_SCALAR_MAT_BINOP, CML_MATXPR_SCALAR_BINOP, CML_SCALAR_MATXPR_BINOP, hA, hX2]

/-- C15 at `A = [[1,2],[3,4]]`, `X = A+A`, `s = 10` and `(i,j) = (1,0)`:
the operand elements are `3` and `6`. -/
theorem C15_scalar_broadcast_witness :
    (CML_MAT_SCALAR_BINOP (fun p q => p * q) 0 10).get store22 1 0 = .ok (3 * 10) ∧
    (CML_SCALAR_MAT_BINOP (fun p q => p * q) 10 0).get store22 1 0 = .ok (10 * 3) ∧
    (CML_MATXPR_SCALAR_BINOP (fun p q => p * q)
      (CML_MAT_MAT_BINOP (fun p q => p + q) 0 0) 10).get store22 1 0 = .ok (6 * 10) ∧
    (CML_SCALAR_MATXPR_BINOP (fun p q => p * q) 10
      (CML_MAT_MAT_BINOP (fun p q => p + q) 0 0)).get store22 1 0 = .ok (10 * 6) ∧
    ∀ k l, (et.MatrixNode.scalar (10 : Int)).get store22 k l = .ok 10 :=
  C15_scalar_broadcast store22 0 (CML_MAT_MAT_BINOP (fun p q => p + q) 0 0) 10 1 0 3 6
    rfl rfl

/-- C16: over an associative addition, for matrices `A`, `B`, `C` and
expressions `X`, `Y`, `Z`, the nodes `(A+B)+C` (which is also `A+B+C`) and
`A+(B+C)` have the same element at every `(i,j)`, and so have `(X+Y)+Z` and
`X+(Y+Z)`, although the node trees differ. -/
theorem C16_add_assoc [AddSemigroup α] (σ : Store α) (A B C : Nat)
    (X Y Z : et.MatrixXpr α) (i j : Nat) :
    (CML_MATXPR_MAT_BINOP (fun p q => p + q)
        (CML_MAT_MAT_BINOP (fun p q => p + q) A B) C).get σ i j
      = (CML_MAT_MATXPR_BINOP (fun p q => p + q) A
        (CML_MAT_MAT_BINOP (fun p q => p + q) B C)).get σ i j ∧
    (CML_MATXPR_MATXPR_BINOP (fun p q => p + q)
        (CML_MATXPR_MATXPR_BINOP (fun p q => p + q) X Y) Z).get σ i j
      = (CML_MATXPR_MATXPR_BINOP (fun p q => p + q) X
        (CML_MATXPR_MATXPR_BINOP (fun p q => p + q) Y Z)).get σ i j ∧
    (CML_MATXPR_MAT_BINOP (fun p q => p + q)
        (CML_MAT_MAT_BINOP (fun p q => p + q) A B) C : et.MatrixXpr α).expression
      ≠ (CML_MAT_MATXPR_BINOP (fun p q => p + q) A
        (CML_MAT_MAT_BINOP (fun p q => p + q) B C)).expression := by
  refine ⟨?_, ?_, ?_⟩
  · simp only [CML_MATXPR_MAT_BINOP, CML_MAT_MATXPR_BINOP, CML_MAT_MAT_BINOP,
      et.MatrixXpr.get, et.MatrixNode.get]
    cases et.ExprTraits.get (σ.mat A) i j with
    | error err => rfl
    | ok x =>
      cases et.ExprTraits.get (σ.mat B) i j with
      | error err => rfl
      | ok y =>
        cases et.ExprTraits.get (σ.mat C) i j with
        | error err => rfl
        | ok z => simp [add_assoc]
  · simp only [CML_MATXPR_MATXPR_BINOP, et.MatrixXpr.get, et.MatrixNode.get]
    cases X.expression.get σ i j with
    | error err => rfl
    | ok x =>
      cases Y.expression.get σ i j with
      | error err => rfl
      | ok y =>
        cases Z.expression.get σ i j with
        | error err => rfl
        | ok z => simp [add_assoc]
  · simp [CML_MATXPR_MAT_BINOP, CML_MAT_MATXPR_BINOP, CML_MAT_MAT_BINOP]

/-- C17: every expression returned by a sequence of the generated unary and
binary operator functions is a `MatrixXpr` whose tree holds no `MatrixXpr`:
each sub-operand is a matrix, a scalar or a Unary/BinaryMatrixOp, as the
generators store `expression()` of an expression argument. A node storing the
wrapper itself would not have this form. -/
theorem C17_generated_hoisted (e : et.MatrixXpr α) (h : Generated e) :
    e.expression.hoisted = true ∧
    ∀ (op : et.UnaryOp α) (arg : et.MatrixXpr α),
      (et.MatrixNode.UnaryMatrixOp op (.wrapped arg.expression)).hoisted = false := by
  refine ⟨?_, fun op arg => rfl⟩
  induction h with
  | mat_uniop op arg => rfl
  | matxpr_uniop op arg _ ih => simpa [CML_MATXPR_UNIOP, et.MatrixNode.hoisted] using ih
  | mat_mat op left right => rfl
  | mat_matxpr op left right _ ih =>
    simpa [CML_MAT_MATXPR_BINOP, et.MatrixNode.hoisted] using ih
  | matxpr_mat op left right _ ih =>
    simpa [CML_MATXPR_MAT_BINOP, et.MatrixNode.hoisted] using ih
  | matxpr_matxpr op left right _ _ ihl ihr =>
    simp [CML_MATXPR_MATXPR_BINOP, et.MatrixNode.hoisted, ihl, ihr]
  | mat_scalar op left right => rfl
  | scalar_mat op left right => rfl
  | matxpr_scalar op left right _ ih =>
    simpa [CML_MATXPR_SCALAR_BINOP, et.MatrixNode.hoisted] using ih
  | scalar_matxpr op left right _ ih =>
    simpa [CML_SCALAR_MATXPR_BINOP, et.MatrixNode.hoisted] using ih

/-- C17 at the expression `(T(A)+B)*2` of the matrices at addresses 0 and 1. -/
theorem C17_generated_hoisted_witness :
    (CML_MATXPR_SCALAR_BINOP (fun p q => p * q)
      (CML_MATXPR_MAT_BINOP (fun p q => p + q) (CML_MAT_UNIOP .transpose 0) 1)
      (2 : Int)).expression.hoisted = true ∧
    ∀ (op : et.UnaryOp Int) (arg : et.MatrixXpr Int),
      (et.MatrixNode.UnaryMatrixOp op (.wrapped arg.expression)).hoisted = false :=
  C17_generated_hoisted _
    (.matxpr_scalar _ _ _ (.matxpr_mat _ _ _ (.mat_uniop _ _)))

/-- C18: for every matrix with `r` rows and `c` columns, square or not,
`identity()` returns without fault a matrix with `r` rows and `c` columns
whose element `(i,j)` is `1` when `i = j` and `0` otherwise, for all `i < r`,
`j < c`. -/
theorem C18_identity [Zero α] [One α] (m : matrix α) :
    ∃ I : matrix α, m.identity = .ok I ∧ I.rows = m.rows ∧ I.cols = m.cols ∧
      ∀ i, i < m.rows → ∀ j, j < m.cols →
        I.get i j = .ok (if i = j then 1 else 0) := by
  obtain ⟨I, h, hr, hc, he⟩ := identity_spec m
  refine ⟨I, h, hr, hc, ?_⟩
  intro i hi j hj
  rw [matrix_get_of_lt I (by omega) (by omega), he i hi j hj]

/-- C19: the member `transpose()` cannot be instantiated, so `A.transpose()`
never returns: its body calls `transpose(*this)`, and inside the class that
name is the member itself, which takes no argument. At `A = [[1,2],[3,4]]` the
call is rejected, where assigning the temporary of the namespace-scope
`transpose(A)` would leave `[[1,3],[2,4]]`. -/
theorem C19_transpose_member_ill_formed :
    (∀ (σ : Store Int) (this : Nat) (σ2 : Store Int), matrix.transpose σ this ≠ .ok σ2) ∧
    matrix.transpose store22 0 = .error .ill_formed_instantiation ∧
    ∃ σ2 : Store Int,
      (cml.transpose store22 0 >>= fun tmp => CML_MAT_ASSIGN_FROM_MATTYPE store22 0 tmp)
        = .ok σ2 ∧
      (σ2.mat 0).get 0 0 = .ok 1 ∧ (σ2.mat 0).get 0 1 = .ok 3 ∧
      (σ2.mat 0).get 1 0 = .ok 2 ∧ (σ2.mat 0).get 1 1 = .ok 4 := by
  refine ⟨?_, rfl, ?_⟩
  · intro σ this σ2 h
    simp [matrix.transpose, matrix.transpose_call] at h
  · obtain ⟨σ2, h, _, _, _, he⟩ := transpose_assign_spec store22 0 rfl
    exact ⟨σ2, h, he 0 (by decide) 0 (by decide), he 0 (by decide) 1 (by decide),
      he 1 (by decide) 0 (by decide), he 1 (by decide) 1 (by decide)⟩

/-- C20: `basis_element(i,j)` returns element `j` of basis vector `i`: for a
`row_basis` matrix it is `M(i,j)`, for a `col_basis` matrix it is `M(j,i)`,
whenever that element is inside the matrix; and `basis_element` of a
`col_basis` matrix is `basis_element` of the `row_basis` matrix holding the
transposed elements, at every `(i,j)`. -/
theorem C20_basis_element (M : matrix α) (i j : Nat) :
    (i < M.rows → j < M.cols → M.basis_element .row_basis i j = .ok (M.elem i j)) ∧
    (j < M.rows → i < M.cols → M.basis_element .col_basis i j = .ok (M.elem j i)) ∧
    M.basis_element .row_basis i j = M.get i j ∧
    M.basis_element .col_basis i j = M.get j i ∧
    M.basis_element .col_basis i j
      = (⟨M.cols, M.rows, fun a b => M.elem b a⟩ : matrix α).basis_element
          .row_basis i j := by
  refine ⟨fun hi hj => matrix_get_of_lt M hi hj, fun hj hi => matrix_get_of_lt M hj hi,
    rfl, rfl, ?_⟩
  simp only [matrix.basis_element, matrix.basis_element_tagged, matrix.get]
  by_cases h : j < M.rows ∧ i < M.cols
  · simp [h]
  · have h2 : ¬ (i < M.cols ∧ j < M.rows) := fun h3 => h ⟨h3.2, h3.1⟩
    simp [h, h2]

/-- C20 at the 1x2 matrix `[[1,2]]`: as a `row_basis` matrix its basis
element `(0,1)` is `M(0,1) = 2`, as a `col_basis` matrix its basis element
`(1,0)` is `M(0,1) = 2`. -/
theorem C20_basis_element_witness :
    (matrix.of12 (1 : Int) 2).basis_element .row_basis 0 1 = .ok 2 ∧
    (matrix.of12 (1 : Int) 2).basis_element .col_basis 1 0 = .ok 2 :=
  ⟨(C20_basis_element (matrix.of12 (1 : Int) 2) 0 1).1 (by decide) (by decide),
   (C20_basis_element (matrix.of12 (1 : Int) 2) 1 0).2.1 (by decide) (by decide)⟩

/-- C21: the expression traits of a Leaf matrix do no computation:
`get(m,i,j)` is the read `m(i,j)`, the stored element for in-range `i`, `j`;
`rows(m)` is `m.rows()`, `cols(m)` is `m.cols()`, and `size(m)` is `m.size()`,
the pair `(m.rows(), m.cols())`. -/
theorem C21_leaf_traits (m : matrix α) (i j : Nat) (hi : i < m.rows) (hj : j < m.cols) :
    et.ExprTraits.get m i j = .ok (m.elem i j) ∧
    et.ExprTraits.get m i j = m.get i j ∧
    et.ExprTraits.rows m = m.rows ∧
    et.ExprTraits.cols m = m.cols ∧
    et.ExprTraits.size m = m.size ∧
    m.size = (m.rows, m.cols) :=
  ⟨matrix_get_of_lt m hi hj, rfl, rfl, rfl, rfl, rfl⟩

/-- C21 at the 1x2 matrix `[[1,2]]` and the element `(0,1)`. -/
theorem C21_leaf_traits_witness :
    et.ExprTraits.get (matrix.of12 (1 : Int) 2) 0 1 = .ok 2 ∧
    et.ExprTraits.get (matrix.of12 (1 : Int) 2) 0 1 = (matrix.of12 (1 : Int) 2).get 0 1 ∧
    et.ExprTraits.rows (matrix.of12 (1 : Int) 2) = 1 ∧
    et.ExprTraits.cols (matrix.of12 (1 : Int) 2) = 2 ∧
    et.ExprTraits.size (matrix.of12 (1 : Int) 2) = (matrix.of12 (1 : Int) 2).size ∧
    (matrix.of12 (1 : Int) 2).size = (1, 2) :=
  C21_leaf_traits (matrix.of12 (1 : Int) 2) 0 1 (by decide) (by decide)

/-- C22: for a vector `x` of length `n ≥ 1`, a matrix `A` with at least `n`
columns and a destination `y` no longer than the row count of `A`, the kernel
`mul(y, A, x)` returns a vector whose element `i` is the left fold
`((A(i,0)*x[0] + A(i,1)*x[1]) + ...) + A(i,n-1)*x[n-1]`, for every `i` and for
any addition and multiplication on the element type; the fold starts from the
`k = 0` product and adds one product per `k` in ascending order. -/
theorem C22_left_fold [Add α] [Mul α] [Inhabited α] (y : vector α) (A : matrix α)
    (x : vector α) (hy : y.size ≤ A.rows) (hx1 : 1 ≤ x.size) (hx : x.size ≤ A.cols) :
    (∃ r : vector α, matvec_ops.detail.mul y A x = .ok r ∧ r.size = y.size ∧
      ∀ i, i < y.size →
        r.get i = .ok (spec_left_fold (fun k => A.elem i k * x.stored k) (x.size - 1))) ∧
    (∀ f : Nat → α, spec_left_fold f 0 = f 0 ∧ spec_left_fold f 1 = f 0 + f 1 ∧
      spec_left_fold f 2 = (f 0 + f 1) + f 2) := by
  refine ⟨⟨_, matvec_ops.detail.mul_eq_of_sums A x
    (fun i => spec_left_fold (fun k => A.elem i k * x.stored k) (x.size - 1)) y
    (fun i hi => matvec_ops.detail.mul_sum_fold A x i (by omega) hx1 hx), ?_, ?_⟩,
    fun f => ⟨rfl, rfl, rfl⟩⟩
  · simp [vector.size]
  · intro i hi
    simp [vector.get, List.getElem?_range hi, hi]

/-- C22 at the row `[1,2,3]` and `x = [1,1,1]` with the addition
`a + b = a + 2 * b`: the kernel returns `(1 + 2) + 3 = 11`, where the fold from
the right gives `1 + (2 + 3) = 17` and the fold from a zero gives `12`. -/
theorem C22_left_fold_witness :
    matvec_ops.detail.mul (et.detail.Resize_vector 1) matrix.skew13 ⟨[⟨1⟩, ⟨1⟩, ⟨1⟩]⟩
      = .ok ⟨[⟨11⟩]⟩ ∧
    ((⟨1⟩ : skew) + (⟨2⟩ + ⟨3⟩) = ⟨17⟩) ∧
    ((((⟨0⟩ : skew) + ⟨1⟩) + ⟨2⟩) + ⟨3⟩ = ⟨12⟩) ∧
    ∃ r : vector skew,
      matvec_ops.detail.mul (et.detail.Resize_vector 1) matrix.skew13 ⟨[⟨1⟩, ⟨1⟩, ⟨1⟩]⟩
        = .ok r ∧
      r.size = (et.detail.Resize_vector 1 : vector skew).size ∧
      ∀ i, i < (et.detail.Resize_vector 1 : vector skew).size →
        r.get i = .ok (spec_left_fold
          (fun k => matrix.skew13.elem i k * (⟨[⟨1⟩, ⟨1⟩, ⟨1⟩]⟩ : vector skew).stored k)
          ((⟨[⟨1⟩, ⟨1⟩, ⟨1⟩]⟩ : vector skew).size - 1)) :=
  ⟨rfl, by decide, by decide,
    (C22_left_fold (et.detail.Resize_vector 1) matrix.skew13 ⟨[⟨1⟩, ⟨1⟩, ⟨1⟩]⟩
      (by decide) (by decide) (by decide)).1⟩

/-- C23: an `operator*` that takes the arguments returns what
`matvec_ops::mul` returns on them unless it rejects the orientation, but only
six of the eight argument combinations of `matvec_ops::mul` have an
`operator*`: none takes a MatrixXpr and a vector, or a vector and a MatrixXpr.
At the expression `A+A`, `A = [[1,2],[3,4]]`, and `x = [1,1]`,
`matvec_ops::mul` returns `[6,14]` and no `operator*` applies. -/
theorem C23_operator_mul_overloads [Add α] [Mul α] [Inhabited α] (σ : Store α)
    (tag : size_tag) (O : oriented_tag) :
    (∀ (l r : Argument α) (res : Except Error (vector α)),
      operator_mul σ tag O l r = some res →
        res = .error .mvmul_expects_properly_oriented_args_error ∨
        matvec_ops.mul σ tag l r = some res) ∧
    (∀ (L : et.MatrixXpr α) (x : vector α),
      matvec_ops.mul σ tag (.MatrixXpr L) (.vector x)
        = some (matvec_ops.mul_MatrixXpr_vector σ tag L x) ∧
      operator_mul σ tag O (.MatrixXpr L) (.vector x) = none) ∧
    (∀ (x : vector α) (R : et.MatrixXpr α),
      matvec_ops.mul σ tag (.vector x) (.MatrixXpr R)
        = some (matvec_ops.mul_vector_MatrixXpr σ tag x R) ∧
      operator_mul σ tag O (.vector x) (.MatrixXpr R) = none) ∧
    (∀ l r : Argument α, (operator_mul σ tag O l r).isSome = true →
      (matvec_ops.mul σ tag l r).isSome = true) ∧
    matvec_ops.mul store22 .dynamic_size_tag
        (.MatrixXpr (CML_MAT_MAT_BINOP (fun a b => a + b) 0 0)) (.vector ⟨[1, 1]⟩)
      = some (.ok ⟨[6, 14]⟩) ∧
    operator_mul store22 .dynamic_size_tag .col_vector
        (.MatrixXpr (CML_MAT_MAT_BINOP (fun a b => a + b) 0 0)) (.vector ⟨[1, 1]⟩)
      = none := by
  refine ⟨?_, fun L x => ⟨rfl, rfl⟩, fun x R => ⟨rfl, rfl⟩, ?_, rfl, rfl⟩
  · intro l r res h
    cases l <;> cases r <;> simp only [operator_mul, Option.some.injEq] at h <;>
      try cases h
    all_goals
      cases O <;>
        simp [matvec_ops.mul, operator_mul_matrix_vector, operator_mul_matrix_VectorXpr,
          operator_mul_MatrixXpr_VectorXpr, operator_mul_vector_matrix,
          operator_mul_VectorXpr_matrix, operator_mul_VectorXpr_MatrixXpr,
          CML_STATIC_REQUIRE_M, same_type]
  · intro l r h
    cases l <;> cases r <;> first | rfl | cases h

/-- C24: for a dynamic matrix of either basis orientation, every `i`, `j` that
address an element of the matrix (basis vector `i`, its element `j`) and every
value `s`: `set_basis_element(i,j,s)` returns, and then `basis_element(i,j)`
returns `s`; the extents are kept. -/
theorem C24_set_basis_element (M : matrix α) (i j : Nat) (s : α) :
    (i < M.rows → j < M.cols →
      ∃ M2 : matrix α, M.set_basis_element .row_basis i j s = .ok M2 ∧
        M2.basis_element .row_basis i j = .ok s) ∧
    (j < M.rows → i < M.cols →
      ∃ M2 : matrix α, M.set_basis_element .col_basis i j s = .ok M2 ∧
        M2.basis_element .col_basis i j = .ok s) ∧
    (∀ (basis_orient : basis_tag) (M2 : matrix α),
      M.set_basis_element basis_orient i j s = .ok M2 →
        M2.basis_element basis_orient i j = .ok s ∧
        M2.rows = M.rows ∧ M2.cols = M.cols) := by
  have key : ∀ (a b : Nat) (M2 : matrix α), M.set a b s = .ok M2 →
      M2.get a b = .ok s ∧ M2.rows = M.rows ∧ M2.cols = M.cols := by
    intro a b M2 h
    unfold matrix.set at h
    by_cases hab : a < M.rows ∧ b < M.cols
    · simp only [hab, and_self, if_true, Except.ok.injEq] at h
      subst h
      simp [matrix.get, hab]
    · simp [hab] at h
  have ex : ∀ a b : Nat, a < M.rows → b < M.cols → ∃ M2 : matrix α, M.set a b s = .ok M2 := by
    intro a b ha hb
    simp [matrix.set, ha, hb]
  refine ⟨?_, ?_, ?_⟩
  · intro hi hj
    obtain ⟨M2, h⟩ := ex i j hi hj
    exact ⟨M2, h, (key i j M2 h).1⟩
  · intro hj hi
    obtain ⟨M2, h⟩ := ex j i hj hi
    exact ⟨M2, h, (key j i M2 h).1⟩
  · intro basis_orient M2 h
    cases basis_orient
    · exact key i j M2 h
    · exact key j i M2 h

/-- C24 at the 1x2 matrix `[[1,2]]` and `s = 9`: as a `row_basis` matrix at
`(0,1)`, as a `col_basis` matrix at `(1,0)`. -/
theorem C24_set_basis_element_witness :
    (∃ M2 : matrix Int,
      (matrix.of12 (1 : Int) 2).set_basis_element .row_basis 0 1 9 = .ok M2 ∧
        M2.basis_element .row_basis 0 1 = .ok 9) ∧
    (∃ M2 : matrix Int,
      (matrix.of12 (1 : Int) 2).set_basis_element .col_basis 1 0 9 = .ok M2 ∧
        M2.basis_element .col_basis 1 0 = .ok 9) :=
  ⟨(C24_set_basis_element (matrix.of12 (1 : Int) 2) 0 1 9).1 (by decide) (by decide),
   (C24_set_basis_element (matrix.of12 (1 : Int) 2) 1 0 9).2.1 (by decide) (by decide)⟩

/-- C25, as stated, fails at `c = 0`: the 1x0 matrix and the empty vector pass
the size check, the result has length 1, and the kernel reads `A(0,0)` and
`x[0]`, which are outside the matrix and the vector; no vector is returned. -/
theorem C25_reads_in_range_counterexample :
    CheckedSize_matrix_vector matrix.of10 (⟨[]⟩ : vector Int) .dynamic_size_tag = .ok 1 ∧
    matvec_ops.detail.mul_reads 1 (⟨[]⟩ : vector Int).size
      = [.matrix_elem 0 0, .vector_elem 0] ∧
    ¬ (matvec_ops.detail.read.matrix_elem 0 0).in_range matrix.of10 (⟨[]⟩ : vector Int) ∧
    ¬ (matvec_ops.detail.read.vector_elem 0).in_range matrix.of10 (⟨[]⟩ : vector Int) ∧
    matvec_ops.detail.mul (et.detail.Resize_vector 1) matrix.of10 ⟨[]⟩
      = .error .out_of_range :=
  ⟨rfl, rfl, by decide, by decide, rfl⟩

/-- C25, amended: for every matrix `A` with `r` rows and `c` columns, result
vector `y` of length `r` and vector `x` of length `c`, every read of the
kernel `mul(y, A, x)` is inside the matrix and the vector exactly when `c ≥ 1`
or `r = 0`, and exactly then the kernel returns a vector. -/
theorem C25_reads_in_range [Add α] [Mul α] (y : vector α) (A : matrix α) (x : vector α)
    (hy : y.size = A.rows) (hx : x.size = A.cols) :
    ((∀ r ∈ matvec_ops.detail.mul_reads y.size x.size, r.in_range A x)
      ↔ (1 ≤ A.cols ∨ A.rows = 0)) ∧
    ((∃ r : vector α, matvec_ops.detail.mul y A x = .ok r)
      ↔ (1 ≤ A.cols ∨ A.rows = 0)) := by
  have h : (∀ r ∈ matvec_ops.detail.mul_reads y.size x.size, r.in_range A x)
      ↔ (1 ≤ A.cols ∨ A.rows = 0) := by
    rw [matvec_ops.detail.mul_reads_in_range_iff, hy, hx]
    constructor
    · intro h
      by_cases hr : A.rows = 0
      · exact Or.inr hr
      · have := h 0 (by omega) 0 (Or.inl rfl)
        exact Or.inl (by omega)
    · intro h i hi k hk
      omega
  exact ⟨h, (matvec_ops.detail.mul_ok_iff_reads_in_range y A x).trans h⟩

/-- C25, amended, at `A = [[1,2],[3,4]]`, `x = [1,1]`: the eight reads are
inside the containers and the kernel returns a vector. -/
theorem C25_reads_in_range_witness :
    (∀ r ∈ matvec_ops.detail.mul_reads (et.detail.Resize_vector 2 : vector Int).size
        (⟨[1, 1]⟩ : vector Int).size,
      r.in_range (matrix.of22 (1 : Int) 2 3 4) ⟨[1, 1]⟩) ∧
    ∃ r : vector Int, matvec_ops.detail.mul (et.detail.Resize_vector 2)
      (matrix.of22 (1 : Int) 2 3 4) ⟨[1, 1]⟩ = .ok r :=
  ⟨(C25_reads_in_range (et.detail.Resize_vector 2) (matrix.of22 (1 : Int) 2 3 4)
      ⟨[1, 1]⟩ rfl rfl).1.2 (Or.inl (by decide)),
   (C25_reads_in_range (et.detail.Resize_vector 2) (matrix.of22 (1 : Int) 2 3 4)
      ⟨[1, 1]⟩ rfl rfl).2.2 (Or.inl (by decide))⟩

/-- C26: the product `x*A` runs the kernel of `A*x` on a result sized to the
column count, so it reads `A(i,k)` for `i < c` and `k < r`. At the row vector
`[5]` and the 1x2 matrix `[[1,2]]` it reads `A(1,0)`, outside the matrix, and
returns no vector; for every matrix with at least one row and one column that
is not square some matrix read is outside the matrix, and for a square one
every read is inside. -/
theorem C26_xA_reads :
    (⟨[5]⟩ : vector Int).size = (matrix.of12 (1 : Int) 2).rows ∧
    CheckedSize_vector_matrix (⟨[5]⟩ : vector Int) (matrix.of12 (1 : Int) 2)
      .dynamic_size_tag = .ok 2 ∧
    matvec_ops.detail.mul_reads 2 (⟨[5]⟩ : vector Int).size
      = [.matrix_elem 0 0, .vector_elem 0, .matrix_elem 1 0, .vector_elem 0] ∧
    ¬ (matvec_ops.detail.read.matrix_elem 1 0).in_range (matrix.of12 (1 : Int) 2)
        (⟨[5]⟩ : vector Int) ∧
    matvec_ops.detail.mul_xA .dynamic_size_tag ⟨[5]⟩ (matrix.of12 (1 : Int) 2)
      = .error .out_of_range ∧
    (∀ (y : vector Int) (A : matrix Int) (x : vector Int),
      y.size = A.cols → x.size = A.rows → 1 ≤ A.rows → 1 ≤ A.cols →
        (A.rows ≠ A.cols →
          ∃ i k, matvec_ops.detail.read.matrix_elem i k
              ∈ matvec_ops.detail.mul_reads y.size x.size ∧
            ¬ (i < A.rows ∧ k < A.cols)) ∧
        (A.rows = A.cols →
          ∀ r ∈ matvec_ops.detail.mul_reads y.size x.size, r.in_range A x)) := by
  refine ⟨rfl, rfl, rfl, by decide, rfl, ?_⟩
  intro y A x hy hx hr hc
  have mem : ∀ i k, i < y.size → (k = 0 ∨ (1 ≤ k ∧ k < x.size)) →
      matvec_ops.detail.read.matrix_elem i k
        ∈ matvec_ops.detail.mul_reads y.size x.size := by
    intro i k hi hk
    simp only [matvec_ops.detail.mul_reads, List.mem_flatMap, List.mem_range]
    refine ⟨i, hi, ?_⟩
    rcases hk with rfl | hk
    · simp [matvec_ops.detail.mul_sum_reads]
    · simp only [matvec_ops.detail.mul_sum_reads, List.mem_append, List.mem_flatMap]
      exact Or.inr ⟨k, List.mem_range'_1.2 (by omega), by simp⟩
  constructor
  · intro hne
    by_cases hlt : A.rows < A.cols
    · exact ⟨A.cols - 1, 0, mem _ _ (by omega) (Or.inl rfl), by omega⟩
    · exact ⟨0, A.rows - 1, mem _ _ (by omega) (Or.inr (by omega)), by omega⟩
  · intro hsq
    rw [matvec_ops.detail.mul_reads_in_range_iff]
    intro i hi k hk
    omega

/-- C27: over a semiring, hence over every commutative ring, for a matrix `A`
with `r` rows and `c ≥ 1` columns, vectors `x`, `z` of length `c` and a vector
expression `R` of length `c` whose element `k` is `x[k] + z[k]`, the products
`A*R`, `A*x` and `A*z` return vectors of length `r` with
`(A*R)[i] = (A*x)[i] + (A*z)[i]` for every `i < r`. -/
theorem C27_mul_additive [Semiring α] [Inhabited α] (σ : Store α) (tag : size_tag)
    (A : matrix α) (x z : vector α) (R : et.VectorXpr α) (hc : 1 ≤ A.cols)
    (hx : x.size = A.cols) (hz : z.size = A.cols) (hRs : R.size σ = .ok A.cols)
    (hR : ∀ k, k < A.cols → R.get σ k = .ok (x.elem k + z.elem k)) :
    ∃ y yx yz : vector α,
      operator_mul_matrix_VectorXpr σ tag .col_vector A R = .ok y ∧
      operator_mul_matrix_vector tag .col_vector A x = .ok yx ∧
      operator_mul_matrix_vector tag .col_vector A z = .ok yz ∧
      y.size = A.rows ∧ yx.size = A.rows ∧ yz.size = A.rows ∧
      ∀ i, i < A.rows → y.elem i = yx.elem i + yz.elem i := by
  let v : vector α := ⟨(List.range A.cols).map fun k => x.elem k + z.elem k⟩
  have hvs : v.size = A.cols := by simp [v, vector.size]
  have hve : ∀ k, k < A.cols → v.elem k = x.elem k + z.elem k := by
    intro k hk
    simp [v, vector.elem, List.getElem?_range hk, hk]
  have hvg : ∀ k, k < v.size → R.get σ k = v.get k := by
    intro k hk
    rw [hvs] at hk
    rw [hR k hk]
    simp [v, vector.get, List.getElem?_range hk, hk]
  have hassign := vector_assign_eq σ R v (by rw [hvs]; exact hRs) hvg
  rw [hvs] at hassign
  have elem_map : ∀ (f : Nat → α) (i : Nat), i < A.rows →
      (⟨(List.range A.rows).map f⟩ : vector α).elem i = f i := by
    intro f i hi
    simp [vector.elem, List.getElem?_range hi, hi]
  let g : vector α → vector α := fun w => ⟨(List.range A.rows).map
    (fun i => ∑ k ∈ Finset.range A.cols, A.elem i k * w.elem k)⟩
  refine ⟨g v, g x, g z, ?_, ?_, ?_, ?_, ?_, ?_, ?_⟩
  · simp only [operator_mul_matrix_VectorXpr, CML_STATIC_REQUIRE_M, same_type,
      decide_True, if_true, ok_bind, matvec_ops.mul_matrix_VectorXpr, hRs, hassign,
      matvec_ops.detail.mul_call]
    exact matvec_ops.detail.mul_Ax_eq_sums tag A v hc hvs
  · simp only [operator_mul_matrix_vector, CML_STATIC_REQUIRE_M, same_type,
      decide_True, if_true, ok_bind, matvec_ops.mul_matrix_vector,
      matvec_ops.detail.mul_call]
    exact matvec_ops.detail.mul_Ax_eq_sums tag A x hc hx
  · simp only [operator_mul_matrix_vector, CML_STATIC_REQUIRE_M, same_type,
      decide_True, if_true, ok_bind, matvec_ops.mul_matrix_vector,
      matvec_ops.detail.mul_call]
    exact matvec_ops.detail.mul_Ax_eq_sums tag A z hc hz
  · simp [g, vector.size]
  · simp [g, vector.size]
  · simp [g, vector.size]
  · intro i hi
    simp only [g]
    rw [elem_map _ i hi, elem_map _ i hi, elem_map _ i hi, ← Finset.sum_add_distrib]
    refine Finset.sum_congr rfl ?_
    intro k hk
    rw [hve k (Finset.mem_range.1 hk), mul_add]

/-- C27 at `A = [[1,2],[3,4]]`, `x = z = [1,1]` and the expression `x + z`:
`A*(x+z) = [6,14]` and `A*x = A*z = [3,7]`. -/
theorem C27_mul_additive_witness :
    operator_mul_matrix_VectorXpr store22 .dynamic_size_tag .col_vector
        (matrix.of22 1 2 3 4) ⟨.BinaryVectorOp (fun a b => a + b) (.leaf 0) (.leaf 1)⟩
      = .ok ⟨[6, 14]⟩ ∧
    operator_mul_matrix_vector .dynamic_size_tag .col_vector (matrix.of22 (1 : Int) 2 3 4)
        ⟨[1, 1]⟩
      = .ok ⟨[3, 7]⟩ ∧
    ∃ y yx yz : vector Int,
      operator_mul_matrix_VectorXpr store22 .dynamic_size_tag .col_vector
        (matrix.of22 1 2 3 4) ⟨.BinaryVectorOp (fun a b => a + b) (.leaf 0) (.leaf 1)⟩
        = .ok y ∧
      operator_mul_matrix_vector .dynamic_size_tag .col_vector (matrix.of22 1 2 3 4)
        (store22.vec 0) = .ok yx ∧
      operator_mul_matrix_vector .dynamic_size_tag .col_vector (matrix.of22 1 2 3 4)
        (store22.vec 1) = .ok yz ∧
      y.size = (matrix.of22 (1 : Int) 2 3 4).rows ∧
      yx.size = (matrix.of22 (1 : Int) 2 3 4).rows ∧
      yz.size = (matrix.of22 (1 : Int) 2 3 4).rows ∧
      ∀ i, i < (matrix.of22 (1 : Int) 2 3 4).rows → y.elem i = yx.elem i + yz.elem i :=
  ⟨rfl, rfl,
    C27_mul_additive store22 .dynamic_size_tag (matrix.of22 1 2 3 4) (store22.vec 0)
      (store22.vec 1) ⟨.BinaryVectorOp (fun a b => a + b) (.leaf 0) (.leaf 1)⟩
      (by decide) rfl rfl rfl
      (by
        intro k hk
        have hk2 : k < 2 := hk
        interval_cases k <;> rfl)⟩

end cml
